import Mathlib

/-!
# Verification of the OCSF-to-SQLAlchemy schema pipeline

A shallow embedding, in Lean 4, of the schema-analysis and code-generation
pipeline of the `ocsf-2-sqlalchemy` repository (`src/parser/naming.py`,
`schema_loader.py`, `inheritance_resolver.py`, `schema_analyzer.py`,
`object_filter.py`, `code_generator.py`, `type_mapper.py`), together with
theorems settling the specification claims about it.

Modelling conventions:
* Python `dict`s (insertion ordered, unique keys) are modelled as association
  lists `List (String × α)` iterated in list order; `d[k] = v` is `dinsert`
  (update in place, else append) and `d.get(k)` is `dlookup`.
* Python `set`s are modelled as duplicate-free lists in insertion order
  (`setInsert`); every property proved about them is order independent.
* Python strings are modelled as `String` where only equality and
  concatenation matter, and as lists of Unicode code points (`List Nat`)
  inside the naming component, whose case conversions are modelled with
  their ASCII semantics (the regexes in the source use the ASCII classes
  `[A-Z]`, `[a-z]`, `\d` literally; `str.lower`/`str.capitalize` are
  modelled on the ASCII range).
* `while` loops are modelled with an explicit fuel parameter chosen at each
  call site large enough to cover every iteration the Python loop can make;
  theorems about loop invariants are proved for every fuel value.
* Python exceptions are modelled with `Except String`.
-/

/-! ## Association lists: the model of Python `dict` -/

/-- `d.get(k)`: first binding of `k` in the association list (keys are unique
in every list built by `dinsert`, so "first" is "the" binding). -/
def dlookup {α : Type} (k : String) : List (String × α) → Option α
  | [] => none
  | (k₁, v) :: rest => if k₁ = k then some v else dlookup k rest

/-- `d[k] = v`: overwrite the binding in place if the key exists (Python
dicts keep the original position), otherwise append a new binding. -/
def dinsert {α : Type} (m : List (String × α)) (k : String) (v : α) :
    List (String × α) :=
  match m with
  | [] => [(k, v)]
  | (k₁, v₁) :: rest =>
    if k₁ = k then (k, v) :: rest else (k₁, v₁) :: dinsert rest k v

/-- `d[k] = f(d[k])`: modify the value at `k` in place; no-op when the key is
absent (call sites only use it on present keys, mirroring Python's
`d[k] += …` which would raise `KeyError` otherwise). -/
def dmodify {α : Type} (m : List (String × α)) (k : String) (f : α → α) :
    List (String × α) :=
  match m with
  | [] => []
  | (k₁, v₁) :: rest =>
    if k₁ = k then (k₁, f v₁) :: rest else (k₁, v₁) :: dmodify rest k f

/-- `s.add(x)` on a Python set, modelled as appending when absent. -/
def setInsert (l : List String) (x : String) : List String :=
  if x ∈ l then l else l ++ [x]

theorem dlookup_dinsert_self {α : Type} (m : List (String × α)) (k : String)
    (v : α) : dlookup k (dinsert m k v) = some v := by
  induction m with
  | nil => simp [dinsert, dlookup]
  | cons hd tl ih =>
    obtain ⟨k₁, v₁⟩ := hd
    by_cases h : k₁ = k
    · simp [dinsert, h, dlookup]
    · simp [dinsert, h, dlookup, ih]

theorem dlookup_dinsert_ne {α : Type} (m : List (String × α)) {k k₂ : String}
    (v : α) (h : k ≠ k₂) : dlookup k₂ (dinsert m k v) = dlookup k₂ m := by
  induction m with
  | nil => simp [dinsert, dlookup, h]
  | cons hd tl ih =>
    obtain ⟨k₁, v₁⟩ := hd
    by_cases h₁ : k₁ = k
    · subst h₁; simp [dinsert, dlookup, h]
    · simp [dinsert, h₁, dlookup, ih]

theorem dlookup_dmodify_self {α : Type} (m : List (String × α)) (k : String)
    (f : α → α) : dlookup k (dmodify m k f) = (dlookup k m).map f := by
  induction m with
  | nil => simp [dmodify, dlookup]
  | cons hd tl ih =>
    obtain ⟨k₁, v₁⟩ := hd
    by_cases h : k₁ = k
    · simp [dmodify, h, dlookup]
    · simp [dmodify, h, dlookup, ih]

theorem dlookup_dmodify_ne {α : Type} (m : List (String × α)) {k k₂ : String}
    (f : α → α) (h : k ≠ k₂) : dlookup k₂ (dmodify m k f) = dlookup k₂ m := by
  induction m with
  | nil => simp [dmodify]
  | cons hd tl ih =>
    obtain ⟨k₁, v₁⟩ := hd
    by_cases h₁ : k₁ = k
    · subst h₁; simp [dmodify, dlookup, h]
    · simp [dmodify, h₁, dlookup, ih]

theorem dmodify_keys {α : Type} (m : List (String × α)) (k : String)
    (f : α → α) : (dmodify m k f).map Prod.fst = m.map Prod.fst := by
  induction m with
  | nil => rfl
  | cons hd tl ih =>
    obtain ⟨k₁, v₁⟩ := hd
    by_cases h : k₁ = k <;> simp [dmodify, h, ih]

theorem dinsert_keys_of_mem {α : Type} (m : List (String × α)) {k : String}
    (v : α) (h : k ∈ m.map Prod.fst) :
    (dinsert m k v).map Prod.fst = m.map Prod.fst := by
  induction m with
  | nil => simp at h
  | cons hd tl ih =>
    obtain ⟨k₁, v₁⟩ := hd
    by_cases h₁ : k₁ = k
    · simp [dinsert, h₁]
    · simp only [List.map_cons, List.mem_cons] at h
      rcases h with h | h
      · exact absurd h.symm h₁
      · simp [dinsert, h₁, ih h]

theorem dinsert_keys_of_not_mem {α : Type} (m : List (String × α)) {k : String}
    (v : α) (h : k ∉ m.map Prod.fst) :
    (dinsert m k v).map Prod.fst = m.map Prod.fst ++ [k] := by
  induction m with
  | nil => simp [dinsert]
  | cons hd tl ih =>
    obtain ⟨k₁, v₁⟩ := hd
    simp only [List.map_cons, List.mem_cons] at h
    push_neg at h
    simp [dinsert, Ne.symm h.1, ih h.2]

theorem dlookup_eq_none {α : Type} (m : List (String × α)) (k : String)
    (h : k ∉ m.map Prod.fst) : dlookup k m = none := by
  induction m with
  | nil => rfl
  | cons hd tl ih =>
    obtain ⟨k₁, v₁⟩ := hd
    simp only [List.map_cons, List.mem_cons] at h
    push_neg at h
    simp [dlookup, Ne.symm h.1, ih h.2]

theorem dlookup_mem {α : Type} (m : List (String × α)) (k : String) (v : α)
    (h : dlookup k m = some v) : (k, v) ∈ m := by
  induction m with
  | nil => simp [dlookup] at h
  | cons hd tl ih =>
    obtain ⟨k₁, v₁⟩ := hd
    by_cases h₁ : k₁ = k
    · subst h₁
      simp [dlookup] at h
      simp [h]
    · simp [dlookup, h₁] at h
      exact List.mem_cons_of_mem _ (ih h)

theorem dlookup_isSome_of_mem {α : Type} (m : List (String × α)) (k : String)
    (h : k ∈ m.map Prod.fst) : (dlookup k m).isSome := by
  induction m with
  | nil => simp at h
  | cons hd tl ih =>
    obtain ⟨k₁, v₁⟩ := hd
    by_cases h₁ : k₁ = k
    · simp [dlookup, h₁]
    · simp only [List.map_cons, List.mem_cons] at h
      rcases h with h | h
      · exact absurd h.symm h₁
      · simp [dlookup, h₁, ih h]

/-! ## Naming component (`naming.py`)

Python strings are modelled as lists of code points (`List Nat`); the regex
substitutions of `to_snake_case` are implemented with the exact scanning
semantics of `re.sub` (leftmost match, greedy `+`, scanning resumes after
the consumed match). -/

/-- `[A-Z]` of the source regexes (ASCII uppercase). -/
def isUpperCp (c : Nat) : Bool := decide (65 ≤ c ∧ c ≤ 90)

/-- `[a-z]` of the source regexes (ASCII lowercase). -/
def isLowerCp (c : Nat) : Bool := decide (97 ≤ c ∧ c ≤ 122)

/-- `\d` of the source regexes, modelled as the ASCII digits. -/
def isDigitCp (c : Nat) : Bool := decide (48 ≤ c ∧ c ≤ 57)

/-- `\s` of `re.split`, modelled as the ASCII whitespace class. -/
def isSpaceCp (c : Nat) : Bool :=
  decide (c = 32 ∨ c = 9 ∨ c = 10 ∨ c = 13 ∨ c = 11 ∨ c = 12)

/-- `str.lower` on the ASCII range (the only range the pipeline feeds it). -/
def pyLower (c : Nat) : Nat := if isUpperCp c then c + 32 else c

/-- Upper-casing used by `str.capitalize` on the first character. -/
def pyUpper (c : Nat) : Nat := if isLowerCp c then c - 32 else c

/-- `name.replace("-", "_").replace(" ", "_")`. -/
def replaceSep (l : List Nat) : List Nat :=
  l.map fun c => if c = 45 ∨ c = 32 then 95 else c

/-- `re.sub(r"([A-Z]+)([A-Z][a-z])", r"\1_\2", …)`: scan the string keeping
the (reversed) uppercase run read so far; on seeing a lowercase letter after
a run of at least two uppercase letters, insert `_` before the run's last
letter and resume after the consumed match.  No match can start inside an
uppercase run that this scan skips, so the scan is exactly `re.sub`. -/
def sub2Go : List Nat → List Nat → List Nat
  | run, [] => run.reverse
  | run, c :: rest =>
    if isUpperCp c then sub2Go (c :: run) rest
    else if isLowerCp c ∧ 2 ≤ run.length then
      run.reverse.dropLast ++ [95, run.headD 0, c] ++ sub2Go [] rest
    else run.reverse ++ [c] ++ sub2Go [] rest

def sub2 (l : List Nat) : List Nat := sub2Go [] l

/-- `re.sub(r"([a-z\d])([A-Z])", r"\1_\2", …)`: both matched characters are
consumed, and a consumed uppercase letter can never begin the next match,
so this two-character scan is exactly `re.sub`. -/
def sub3 : List Nat → List Nat
  | [] => []
  | [c] => [c]
  | c :: d :: rest =>
    if (isLowerCp c ∨ isDigitCp c) ∧ isUpperCp d then c :: 95 :: d :: sub3 rest
    else c :: sub3 (d :: rest)

/-- `re.sub(r"_+", "_", …)`: collapse every run of underscores to one. -/
def collapseUnd : List Nat → List Nat
  | [] => []
  | [c] => [c]
  | c :: d :: rest =>
    if c = 95 ∧ d = 95 then collapseUnd (d :: rest)
    else c :: collapseUnd (d :: rest)

/-- `str.strip("_")`: drop leading and trailing underscores. -/
def stripUnd (l : List Nat) : List Nat :=
  ((l.dropWhile fun c => c = 95).reverse.dropWhile fun c => c = 95).reverse

/-- `NamingConvention.to_snake_case`. -/
def toSnakeCase (l : List Nat) : List Nat :=
  if l = [] then l
  else stripUnd (collapseUnd ((sub3 (sub2 (replaceSep l))).map pyLower))

/-- `str.capitalize`: first character upper-cased, the rest lower-cased. -/
def pyCapitalize : List Nat → List Nat
  | [] => []
  | c :: rest => pyUpper c :: rest.map pyLower

/-- `NamingConvention.to_pascal_case`: split on `[_\-\s]+`, capitalize each
non-empty part, join.  `re.split` on a `+`-pattern followed by the
source's `if word` filter is the same as splitting at every separator
character and dropping the empty parts. -/
def toPascalCase (l : List Nat) : List Nat :=
  if l = [] then l
  else
    (((l.splitOnP fun c => isSpaceCp c || c = 95 || c = 45).filter
      fun w => w ≠ []).map pyCapitalize).flatten

/-- `NamingConfig` (the four prefix/suffix strings), as code-point lists. -/
structure NamingConfigS where
  tablePre : List Nat
  tableSuf : List Nat
  classPre : List Nat
  classSuf : List Nat
deriving DecidableEq

/-- String literal → code-point list, for stating concrete examples. -/
def strCp (s : String) : List Nat := s.data.map Char.toNat

/-- The default `NamingConfig()`. -/
def defaultNamingConfig : NamingConfigS :=
  { tablePre := strCp "ocsf_", tableSuf := []
    classPre := strCp "Ocsf", classSuf := [] }

/-- `NamingConvention.table_name`. -/
def tableNameF (cfg : NamingConfigS) (name : List Nat) : List Nat :=
  cfg.tablePre ++ toSnakeCase name ++ cfg.tableSuf

/-- `NamingConvention.class_name`. -/
def classNameF (cfg : NamingConfigS) (name : List Nat) : List Nat :=
  cfg.classPre ++ toPascalCase name ++ cfg.classSuf

/-- **C9**: under the default configuration `table_name("ProcessActivity")`
is `"ocsf_process_activity"` and `class_name("process_activity")` is
`"OcsfProcessActivity"`; both are deterministic: re-running either with
identical input and configuration yields the identical string. -/
theorem C9_naming_values_and_determinism :
    tableNameF defaultNamingConfig (strCp "ProcessActivity") =
        strCp "ocsf_process_activity" ∧
    classNameF defaultNamingConfig (strCp "process_activity") =
        strCp "OcsfProcessActivity" ∧
    ∀ (cfg : NamingConfigS) (s : List Nat),
      tableNameF cfg s = tableNameF cfg s ∧ classNameF cfg s = classNameF cfg s :=
  ⟨by decide, by decide, fun _ _ => ⟨rfl, rfl⟩⟩

/-! ### Idempotence of `to_snake_case` (claim C10)

The output of `to_snake_case` contains no uppercase letter, hyphen or blank,
no run of underscores, and no leading or trailing underscore; each stage of
the conversion is the identity on such strings. -/

/-- No ASCII uppercase letter occurs in the string. -/
def noUpper (l : List Nat) : Prop := ∀ c ∈ l, isUpperCp c = false

/-- No hyphen and no blank occurs in the string. -/
def noSep (l : List Nat) : Prop := ∀ c ∈ l, c ≠ 45 ∧ c ≠ 32

/-- No two adjacent underscores occur in the string. -/
def noDoubleUnd (l : List Nat) : Prop :=
  l.Chain' fun a b => ¬(a = 95 ∧ b = 95)

theorem replaceSep_id {l : List Nat} (h : noSep l) : replaceSep l = l := by
  induction l with
  | nil => rfl
  | cons c rest ih =>
    have hc := h c (List.mem_cons_self c rest)
    have hr : replaceSep rest = rest :=
      ih fun x hx => h x (List.mem_cons_of_mem _ hx)
    simp only [replaceSep, List.map_cons] at hr ⊢
    rw [hr, if_neg (not_or.2 ⟨hc.1, hc.2⟩)]

theorem sub2Go_nil_id {l : List Nat} (h : noUpper l) : sub2Go [] l = l := by
  induction l with
  | nil => rfl
  | cons c rest ih =>
    have hc := h c (List.mem_cons_self c rest)
    have hrest : noUpper rest := fun x hx => h x (List.mem_cons_of_mem _ hx)
    simp only [sub2Go, hc]
    simp [ih hrest]

theorem sub3_id {l : List Nat} (h : noUpper l) : sub3 l = l := by
  induction l using sub3.induct with
  | case1 => rfl
  | case2 c => rfl
  | case3 c d rest hcd ih =>
    exact absurd (h d (by simp)) (by simp_all)
  | case4 c d rest hcd ih =>
    have : noUpper (d :: rest) := fun x hx => h x (List.mem_cons_of_mem _ hx)
    simp only [sub3, if_neg hcd]
    rw [ih this]

theorem map_pyLower_id {l : List Nat} (h : noUpper l) : l.map pyLower = l := by
  induction l with
  | nil => rfl
  | cons c rest ih =>
    have hc := h c (List.mem_cons_self c rest)
    have hr := ih fun x hx => h x (List.mem_cons_of_mem _ hx)
    simp only [List.map_cons, hr]
    simp [pyLower, hc]

theorem collapseUnd_id {l : List Nat} (h : noDoubleUnd l) : collapseUnd l = l := by
  induction l using collapseUnd.induct with
  | case1 => rfl
  | case2 c => rfl
  | case3 c d rest hcd ih =>
    exact absurd (List.chain'_cons.1 h).1 (by simp_all)
  | case4 c d rest hcd ih =>
    simp only [collapseUnd, if_neg hcd]
    rw [ih (List.chain'_cons.1 h).2]

theorem dropWhile_id_of_head {p : Nat → Bool} {l : List Nat}
    (h : ∀ c, l.head? = some c → p c = false) : l.dropWhile p = l := by
  cases l with
  | nil => rfl
  | cons c rest => simp [List.dropWhile_cons, h c rfl]

theorem stripUnd_id {l : List Nat}
    (h₁ : ∀ c, l.head? = some c → c ≠ 95)
    (h₂ : ∀ c, l.getLast? = some c → c ≠ 95) : stripUnd l = l := by
  have e₁ : l.dropWhile (fun c => decide (c = 95)) = l :=
    dropWhile_id_of_head (by intro c hc; simp [h₁ c hc])
  have e₂ : l.reverse.dropWhile (fun c => decide (c = 95)) = l.reverse :=
    dropWhile_id_of_head
      (by
        intro c hc
        rw [List.head?_reverse l] at hc
        simp [h₂ c hc])
  show ((l.dropWhile _).reverse.dropWhile _).reverse = l
  rw [e₁, e₂, List.reverse_reverse]

theorem mem_sub2Go {c : Nat} :
    ∀ run l, c ∈ sub2Go run l → c ∈ run ∨ c ∈ l ∨ c = 95 := by
  intro run l
  induction l generalizing run with
  | nil =>
    intro h
    rw [sub2Go] at h
    exact Or.inl (List.mem_reverse.1 h)
  | cons d rest ih =>
    intro h
    rw [sub2Go] at h
    by_cases hu : isUpperCp d
    · rw [if_pos hu] at h
      rcases ih (d :: run) h with h | h | h
      · rcases List.mem_cons.1 h with h | h
        · exact Or.inr (Or.inl (h ▸ List.mem_cons_self d rest))
        · exact Or.inl h
      · exact Or.inr (Or.inl (List.mem_cons_of_mem _ h))
      · exact Or.inr (Or.inr h)
    · rw [if_neg hu] at h
      by_cases hm : isLowerCp d ∧ 2 ≤ run.length
      · rw [if_pos hm] at h
        rcases List.mem_append.1 h with h | h
        · rcases List.mem_append.1 h with h | h
          · exact Or.inl (List.mem_reverse.1 (List.dropLast_sublist _ |>.mem h))
          · simp only [List.mem_cons, List.not_mem_nil, or_false] at h
            rcases h with h | h | h
            · exact Or.inr (Or.inr h)
            · cases run with
              | nil => simp at hm
              | cons r₀ rs =>
                simp only [List.headD_cons] at h
                exact Or.inl (h ▸ List.mem_cons_self r₀ rs)
            · exact Or.inr (Or.inl (h ▸ List.mem_cons_self d rest))
        · rcases ih [] h with h | h | h
          · simp at h
          · exact Or.inr (Or.inl (List.mem_cons_of_mem _ h))
          · exact Or.inr (Or.inr h)
      · rw [if_neg hm] at h
        rcases List.mem_append.1 h with h | h
        · rcases List.mem_append.1 h with h | h
          · exact Or.inl (List.mem_reverse.1 h)
          · simp only [List.mem_cons, List.not_mem_nil, or_false] at h
            exact Or.inr (Or.inl (h ▸ List.mem_cons_self d rest))
        · rcases ih [] h with h | h | h
          · simp at h
          · exact Or.inr (Or.inl (List.mem_cons_of_mem _ h))
          · exact Or.inr (Or.inr h)

theorem mem_sub2 {c : Nat} {l : List Nat} (h : c ∈ sub2 l) : c ∈ l ∨ c = 95 := by
  rcases mem_sub2Go [] l h with h | h | h
  · simp at h
  · exact Or.inl h
  · exact Or.inr h

theorem mem_sub3 {c : Nat} : ∀ {l}, c ∈ sub3 l → c ∈ l ∨ c = 95 := by
  intro l
  induction l using sub3.induct with
  | case1 => intro h; simp [sub3] at h
  | case2 d => intro h; rw [sub3] at h; exact Or.inl h
  | case3 d e rest hde ih =>
    intro h
    rw [sub3, if_pos hde] at h
    simp only [List.mem_cons] at h
    rcases h with h | h | h | h
    · exact Or.inl (by simp [h])
    · exact Or.inr h
    · exact Or.inl (by simp [h])
    · rcases ih h with h | h
      · exact Or.inl (by simp [List.mem_cons_of_mem, h])
      · exact Or.inr h
  | case4 d e rest hde ih =>
    intro h
    rw [sub3, if_neg hde] at h
    rcases List.mem_cons.1 h with h | h
    · exact Or.inl (by simp [h])
    · rcases ih h with h | h
      · exact Or.inl (List.mem_cons_of_mem _ h)
      · exact Or.inr h

theorem mem_collapseUnd {c : Nat} : ∀ {l}, c ∈ collapseUnd l → c ∈ l := by
  intro l
  induction l using collapseUnd.induct with
  | case1 => intro h; simp [collapseUnd] at h
  | case2 d => intro h; rw [collapseUnd] at h; exact h
  | case3 d e rest hde ih =>
    intro h
    rw [collapseUnd, if_pos hde] at h
    exact List.mem_cons_of_mem _ (ih h)
  | case4 d e rest hde ih =>
    intro h
    rw [collapseUnd, if_neg hde] at h
    rcases List.mem_cons.1 h with h | h
    · exact List.mem_cons.2 (Or.inl h)
    · exact List.mem_cons_of_mem _ (ih h)

theorem stripUnd_isInfixOf (l : List Nat) : stripUnd l <:+: l := by
  have h₁ : l.dropWhile (fun c => decide (c = 95)) <:+ l := List.dropWhile_suffix _
  have h₂ : (l.dropWhile (fun c => decide (c = 95))).reverse.dropWhile
      (fun c => decide (c = 95)) <:+
      (l.dropWhile (fun c => decide (c = 95))).reverse := List.dropWhile_suffix _
  have h₃ : stripUnd l <+: l.dropWhile (fun c => decide (c = 95)) := by
    apply List.reverse_suffix.1
    rw [stripUnd, List.reverse_reverse]
    exact h₂
  exact h₃.isInfix.trans h₁.isInfix

theorem mem_stripUnd {c : Nat} {l : List Nat} (h : c ∈ stripUnd l) : c ∈ l :=
  (stripUnd_isInfixOf l).sublist.mem h

theorem isUpperCp_pyLower (c : Nat) : isUpperCp (pyLower c) = false := by
  unfold pyLower isUpperCp
  split
  · next h =>
    simp only [decide_eq_true_eq] at h
    simp only [decide_eq_false_iff_not]
    omega
  · next h =>
    simpa using h

theorem noUpper_map_pyLower (l : List Nat) : noUpper (l.map pyLower) := by
  intro c hc
  obtain ⟨c₀, _, rfl⟩ := List.mem_map.1 hc
  exact isUpperCp_pyLower c₀

theorem collapseUnd_head (c : Nat) (xs : List Nat) :
    (collapseUnd (c :: xs)).head? = some c := by
  induction xs generalizing c with
  | nil => rfl
  | cons d rest ih =>
    rw [collapseUnd]
    by_cases h : c = 95 ∧ d = 95
    · rw [if_pos h, ih d, h.1, h.2]
    · rw [if_neg h]
      rfl

theorem noDoubleUnd_collapseUnd : ∀ l, noDoubleUnd (collapseUnd l) := by
  intro l
  unfold noDoubleUnd
  induction l using collapseUnd.induct with
  | case1 => exact List.chain'_nil
  | case2 c => exact List.chain'_singleton c
  | case3 c d rest hcd ih =>
    rw [collapseUnd, if_pos hcd]
    exact ih
  | case4 c d rest hcd ih =>
    rw [collapseUnd, if_neg hcd, List.chain'_cons']
    refine ⟨?_, ih⟩
    intro y hy
    rw [collapseUnd_head d rest] at hy
    simp only [Option.mem_def, Option.some.injEq] at hy
    subst hy
    exact hcd

theorem noDoubleUnd_stripUnd {l : List Nat} (h : noDoubleUnd l) :
    noDoubleUnd (stripUnd l) :=
  List.Chain'.infix h (stripUnd_isInfixOf l)

theorem dropWhile_head_false {p : Nat → Bool} : ∀ {l : List Nat} {c : Nat},
    (l.dropWhile p).head? = some c → p c = false := by
  intro l
  induction l with
  | nil => intro c h; simp at h
  | cons d rest ih =>
    intro c h
    rw [List.dropWhile_cons] at h
    by_cases hd : p d = true
    · rw [if_pos hd] at h
      exact ih h
    · rw [if_neg hd] at h
      simp only [List.head?_cons, Option.some.injEq] at h
      subst h
      simpa using hd

theorem stripUnd_prefix_dropWhile (l : List Nat) :
    stripUnd l <+: l.dropWhile fun c => decide (c = 95) := by
  apply List.reverse_suffix.1
  rw [stripUnd, List.reverse_reverse]
  exact List.dropWhile_suffix _

theorem stripUnd_head_ne {l : List Nat} {c : Nat}
    (h : (stripUnd l).head? = some c) : c ≠ 95 := by
  obtain ⟨t, ht⟩ := stripUnd_prefix_dropWhile l
  have hne : stripUnd l ≠ [] := by
    intro he
    rw [he] at h
    simp at h
  have hc : (l.dropWhile fun c => decide (c = 95)).head? = some c := by
    rw [← ht, List.head?_append_of_ne_nil _ hne, h]
  simpa using dropWhile_head_false hc

theorem stripUnd_getLast_ne {l : List Nat} {c : Nat}
    (h : (stripUnd l).getLast? = some c) : c ≠ 95 := by
  have h' : ((stripUnd l).reverse).head? = some c := by
    rw [List.head?_reverse]
    exact h
  rw [stripUnd, List.reverse_reverse] at h'
  simpa using dropWhile_head_false h'

theorem sub2_id {l : List Nat} (h : noUpper l) : sub2 l = l :=
  sub2Go_nil_id h

theorem pyLower_ne_sep {x : Nat} (h : x ≠ 45 ∧ x ≠ 32) :
    pyLower x ≠ 45 ∧ pyLower x ≠ 32 := by
  unfold pyLower
  split
  · next hx =>
    simp only [isUpperCp, decide_eq_true_eq] at hx
    omega
  · exact h

theorem noSep_replaceSep (l : List Nat) : noSep (replaceSep l) := by
  intro c hc
  obtain ⟨c₀, _, rfl⟩ := List.mem_map.1 hc
  by_cases h : c₀ = 45 ∨ c₀ = 32
  · rw [if_pos h]
    omega
  · rw [if_neg h]
    push_neg at h
    exact h

/-- **C10**: `to_snake_case` is idempotent — feeding an already converted
name back through the conversion never changes it further. -/
theorem C10_to_snake_case_idempotent (l : List Nat) :
    toSnakeCase (toSnakeCase l) = toSnakeCase l := by
  by_cases hl : l = []
  · subst hl
    rfl
  · have hdef : toSnakeCase l =
        stripUnd (collapseUnd ((sub3 (sub2 (replaceSep l))).map pyLower)) := by
      rw [toSnakeCase, if_neg hl]
    set t := toSnakeCase l with ht
    by_cases htn : t = []
    · rw [htn]
      rfl
    · have hU : noUpper t := by
        intro c hc
        rw [hdef] at hc
        exact noUpper_map_pyLower _ _ (mem_collapseUnd (mem_stripUnd hc))
      have hS : noSep t := by
        intro c hc
        rw [hdef] at hc
        have hc' := mem_collapseUnd (mem_stripUnd hc)
        obtain ⟨c₀, hc₀, rfl⟩ := List.mem_map.1 hc'
        have : c₀ ≠ 45 ∧ c₀ ≠ 32 := by
          rcases mem_sub3 hc₀ with h3 | h3
          · rcases mem_sub2 h3 with h2 | h2
            · exact noSep_replaceSep l c₀ h2
            · omega
          · omega
        exact pyLower_ne_sep this
      have hC : noDoubleUnd t := by
        rw [hdef]
        exact noDoubleUnd_stripUnd (noDoubleUnd_collapseUnd _)
      have hH : ∀ c, t.head? = some c → c ≠ 95 := by
        intro c hc
        rw [hdef] at hc
        exact stripUnd_head_ne hc
      have hL : ∀ c, t.getLast? = some c → c ≠ 95 := by
        intro c hc
        rw [hdef] at hc
        exact stripUnd_getLast_ne hc
      calc toSnakeCase t
          = stripUnd (collapseUnd ((sub3 (sub2 (replaceSep t))).map pyLower)) := by
            rw [toSnakeCase, if_neg htn]
        _ = t := by
            rw [replaceSep_id hS, sub2_id hU, sub3_id hU, map_pyLower_id hU,
              collapseUnd_id hC, stripUnd_id hH hL]

/-! ## Raw schema data (`schema_loader.py` dataclasses)

Only the fields that the embedded functions read are carried; the source
dataclasses also store `deprecated`, `group`, `profile`, `sibling`,
`object_name`, `constraints`, `observable` (entity level) and `profiles`,
which no embedded function touches. -/

/-- Inline enum data (the raw `enum` JSON object), kept abstract. -/
abbrev EnumData := List (String × String)

/-- `OcsfAttribute`. -/
structure OcsfAttributeS where
  name : String
  caption : String := ""
  description : String := ""
  typeName : Option String := none
  requirement : String := "optional"
  is_array : Bool := false
  enum : Option EnumData := none
  observable : Option Int := none
  object_type : Option String := none
deriving DecidableEq

/-- The common shape of `OcsfObject` and `OcsfEvent` (the resolver and the
tree builders read exactly these fields of either; the event-only `uid` and
`category` fields play no part in any embedded function). -/
structure RawEntity where
  caption : String := ""
  description : String := ""
  extendsName : Option String := none
  attributes : List (String × OcsfAttributeS) := []
deriving DecidableEq

/-- One entry of `dictionary["attributes"]`: a raw JSON object read with
`.get(key)` / `.get(key, default)`, one optional field per key read. -/
structure DictAttr where
  typeName : Option String := none
  caption : Option String := none
  description : Option String := none
  is_array : Option Bool := none
  enum : Option EnumData := none
  observable : Option Int := none
  object_type : Option String := none
deriving DecidableEq

/-- Python `x or y` for optional strings (`None` and `""` are falsy). -/
def pyOrStr (x y : Option String) : Option String :=
  match x with
  | some s => if s = "" then y else some s
  | none => y

/-- Python `x or y` for optional raw enum objects (`{}` is falsy). -/
def pyOrEnum (x y : Option EnumData) : Option EnumData :=
  match x with
  | some [] => y
  | some l => some l
  | none => y

/-- Python `x or y` for optional integers (`None` and `0` are falsy). -/
def pyOrInt (x y : Option Int) : Option Int :=
  match x with
  | some n => if n = 0 then y else some n
  | none => y

/-- Python truthiness of an optional string. -/
def isTruthy (x : Option String) : Bool :=
  match x with
  | some s => decide (s ≠ "")
  | none => false

/-! ## Inheritance resolver (`inheritance_resolver.py`) -/

/-- `ResolvedAttribute`. -/
structure ResolvedAttributeS where
  name : String
  caption : String
  description : String
  ocsf_type : Option String := none
  requirement : String := "optional"
  is_array : Bool := false
  is_inherited : Bool := false
  source_object : Option String := none
  enum : Option EnumData := none
  observable : Option Int := none
  object_type : Option String := none
deriving DecidableEq

/-- `InheritanceResolver._resolve_attribute`: resolve one attribute against
the shared dictionary, local values winning when truthy (and, for the
caption, when different from the bare attribute name). -/
def resolveAttribute (dictAttrs : List (String × DictAttr))
    (attr : OcsfAttributeS) (source : String) : ResolvedAttributeS :=
  let d := (dlookup attr.name dictAttrs).getD {}
  { name := attr.name
    caption :=
      if attr.caption ≠ attr.name then attr.caption else d.caption.getD attr.name
    description :=
      if attr.description ≠ "" then attr.description else d.description.getD ""
    ocsf_type := pyOrStr attr.typeName d.typeName
    requirement := attr.requirement
    is_array := attr.is_array || d.is_array.getD false
    is_inherited := false
    source_object := some source
    enum := pyOrEnum attr.enum d.enum
    observable := pyOrInt attr.observable d.observable
    object_type := pyOrStr attr.object_type d.object_type }

/-- The `while` loop of `_build_inheritance_chain_object` /
`_build_inheritance_chain_event` (textually identical in the source except
for the map they walk), with explicit fuel.  The loop runs while the current
entity exists and has a truthy `extends`, halting (not erroring) as soon as
the parent name is already on the chain. -/
def buildChainGo (entities : List (String × RawEntity)) :
    Nat → List String → Option RawEntity → List String
  | 0, chain, _ => chain
  | _ + 1, chain, none => chain
  | fuel + 1, chain, some cur =>
    match cur.extendsName with
    | none => chain
    | some p =>
      if p = "" then chain
      else if p ∈ chain then chain
      else buildChainGo entities fuel (chain ++ [p]) (dlookup p entities)

/-- `_build_inheritance_chain_object` / `_build_inheritance_chain_event`:
chain from self (head) towards the root.  The fuel `entities.length + 1` is
provably enough: every loop iteration appends a fresh key of `entities`
(theorem `C5_chain_termination_nodup`). -/
def buildInheritanceChain (entities : List (String × RawEntity))
    (name : String) : List String :=
  buildChainGo entities (entities.length + 1) [name] (dlookup name entities)

theorem buildChainGo_none (entities : List (String × RawEntity)) :
    ∀ fuel chain, buildChainGo entities fuel chain none = chain := by
  intro fuel chain
  cases fuel <;> rfl

theorem buildChainGo_nodup (entities : List (String × RawEntity)) :
    ∀ fuel chain cur, chain.Nodup → (buildChainGo entities fuel chain cur).Nodup := by
  intro fuel
  induction fuel with
  | zero => intro chain cur h; exact h
  | succ f ih =>
    intro chain cur h
    cases cur with
    | none => exact h
    | some o =>
      rw [buildChainGo]
      cases hext : o.extendsName with
      | none => exact h
      | some p =>
        dsimp only
        by_cases hp : p = ""
        · rw [if_pos hp]; exact h
        · rw [if_neg hp]
          by_cases hmem : p ∈ chain
          · rw [if_pos hmem]; exact h
          · rw [if_neg hmem]
            exact ih _ _ (by simp [List.nodup_append, h, hmem])

theorem buildChainGo_prefix (entities : List (String × RawEntity)) :
    ∀ fuel chain cur, chain <+: buildChainGo entities fuel chain cur := by
  intro fuel
  induction fuel with
  | zero => intro chain cur; exact List.prefix_refl chain
  | succ f ih =>
    intro chain cur
    cases cur with
    | none => exact List.prefix_refl chain
    | some o =>
      rw [buildChainGo]
      cases hext : o.extendsName with
      | none => exact List.prefix_refl chain
      | some p =>
        dsimp only
        by_cases hp : p = ""
        · rw [if_pos hp]
        · rw [if_neg hp]
          by_cases hmem : p ∈ chain
          · rw [if_pos hmem]
          · rw [if_neg hmem]
            exact (List.prefix_append chain [p]).trans (ih _ _)

/-- Measure for chain construction: number of entity keys not yet on the
chain, plus one. -/
def chainBound (entities : List (String × RawEntity)) (chain : List String) : Nat :=
  ((entities.map Prod.fst).filter fun k => k ∉ chain).length + 1

theorem buildChainGo_stable (entities : List (String × RawEntity)) :
    ∀ fuel chain cur, chainBound entities chain ≤ fuel →
      buildChainGo entities fuel chain cur =
        buildChainGo entities (chainBound entities chain) chain cur := by
  intro fuel
  induction fuel using Nat.strong_induction_on with
  | _ fuel ih =>
    intro chain cur hb
    have hb1 : 1 ≤ chainBound entities chain := Nat.le_add_left 1 _
    obtain ⟨f, rfl⟩ : ∃ f, fuel = f + 1 := ⟨fuel - 1, by omega⟩
    obtain ⟨b, hbeq⟩ : ∃ b, chainBound entities chain = b + 1 :=
      ⟨chainBound entities chain - 1, by omega⟩
    rw [hbeq]
    cases cur with
    | none => rw [buildChainGo_none, buildChainGo_none]
    | some o =>
      rw [buildChainGo, buildChainGo]
      cases hext : o.extendsName with
      | none => rfl
      | some p =>
        dsimp only
        by_cases hp : p = ""
        · rw [if_pos hp, if_pos hp]
        · rw [if_neg hp, if_neg hp]
          by_cases hmem : p ∈ chain
          · rw [if_pos hmem, if_pos hmem]
          · rw [if_neg hmem, if_neg hmem]
            cases hlk : dlookup p entities with
            | none => rw [buildChainGo_none, buildChainGo_none]
            | some o₂ =>
              have hkey : p ∈ entities.map Prod.fst := by
                have := dlookup_mem entities p o₂ hlk
                exact List.mem_map.2 ⟨(p, o₂), this, rfl⟩
              have hlt : chainBound entities (chain ++ [p]) + 1 ≤
                  chainBound entities chain := by
                unfold chainBound
                have heq : ((entities.map Prod.fst).filter
                    fun k => k ∉ chain ++ [p]) =
                    ((entities.map Prod.fst).filter fun k => k ∉ chain).filter
                      fun k => ¬(k = p) := by
                  rw [List.filter_filter]
                  apply List.filter_congr
                  intro x _
                  simp [List.mem_append, not_or, and_comm]
                have hpmem : p ∈ (entities.map Prod.fst).filter
                    fun k => k ∉ chain := by
                  rw [List.mem_filter]
                  exact ⟨hkey, by simpa using hmem⟩
                have := List.length_filter_lt_length_iff_exists
                  (l := (entities.map Prod.fst).filter fun k => k ∉ chain)
                  (p := fun k => ¬(k = p))
                have hlt' := this.2 ⟨p, hpmem, by simp⟩
                rw [heq]
                omega
              have h₁ := ih f (by omega) (chain ++ [p]) (dlookup p entities)
                (by omega)
              have h₂ := ih b (by omega) (chain ++ [p]) (dlookup p entities)
                (by omega)
              rw [hlk] at h₁ h₂
              rw [h₁, h₂]

/-- **C5**: building an inheritance chain always terminates — with fuel at
least `entities.length + 1` the loop has already reached its exit condition,
even when `extends` pointers form a cycle — and the returned chain starts at
the entity itself and contains no repeated name. -/
theorem C5_chain_termination_nodup (entities : List (String × RawEntity))
    (name : String) (fuel : Nat) (hfuel : entities.length + 1 ≤ fuel) :
    buildChainGo entities fuel [name] (dlookup name entities) =
        buildInheritanceChain entities name ∧
      (buildInheritanceChain entities name).Nodup ∧
      (buildInheritanceChain entities name).head? = some name := by
  have hble : chainBound entities [name] ≤ entities.length + 1 := by
    unfold chainBound
    have h₁ := List.length_filter_le (fun k => decide (k ∉ [name]))
      (entities.map Prod.fst)
    simp only [List.length_map] at h₁
    omega
  refine ⟨?_, ?_, ?_⟩
  · rw [buildChainGo_stable entities fuel [name] _ (le_trans hble hfuel),
      buildInheritanceChain,
      buildChainGo_stable entities (entities.length + 1) [name] _ hble]
  · exact buildChainGo_nodup entities _ _ _ (List.nodup_singleton name)
  · obtain ⟨t, ht⟩ := buildChainGo_prefix entities (entities.length + 1) [name]
      (dlookup name entities)
    rw [buildInheritanceChain, ← ht]
    rfl

/-- Witness for C5 on a concrete cyclic schema (`a extends b extends a`):
the chain halts and is duplicate-free. -/
theorem C5_chain_termination_nodup_witness :
    buildChainGo
        [("a", { extendsName := some "b" }), ("b", { extendsName := some "a" })] 7
        ["a"] (dlookup "a" [("a", { extendsName := some "b" }),
          ("b", { extendsName := some "a" })]) =
      buildInheritanceChain
        [("a", { extendsName := some "b" }), ("b", { extendsName := some "a" })]
        "a" ∧
    (buildInheritanceChain
        [("a", { extendsName := some "b" }), ("b", { extendsName := some "a" })]
        "a").Nodup ∧
    (buildInheritanceChain
        [("a", { extendsName := some "b" }), ("b", { extendsName := some "a" })]
        "a").head? = some "a" :=
  C5_chain_termination_nodup _ "a" 7 (by decide)

/-- The common resolved-entity record (`ResolvedObject`, and the shared part
of `ResolvedEvent`). -/
structure ResolvedEntityS where
  name : String
  caption : String
  description : String
  extendsName : Option String := none
  inheritance_chain : List String := []
  own_attributes : List (String × ResolvedAttributeS) := []
  inherited_attributes : List (String × ResolvedAttributeS) := []
  all_attributes : List (String × ResolvedAttributeS) := []
deriving DecidableEq

/-- `resolved.is_inherited = True` applied after `_resolve_attribute`. -/
def markInherited (a : ResolvedAttributeS) : ResolvedAttributeS :=
  { a with is_inherited := true }

/-- `InheritanceResolver.resolve_object` (and, run over the event map,
`resolve_event`, which repeats the same steps verbatim): build the chain,
collect ancestor attributes root-to-parent as inherited, collect own
attributes, and merge `{**inherited, **own}`. -/
def resolveEntity (entities : List (String × RawEntity))
    (dictAttrs : List (String × DictAttr)) (name : String) :
    Option ResolvedEntityS :=
  match dlookup name entities with
  | none => none
  | some obj =>
    let chain := buildInheritanceChain entities name
    let inherited := chain.tail.reverse.foldl
      (fun m parentName =>
        match dlookup parentName entities with
        | some parent =>
          parent.attributes.foldl
            (fun m kv =>
              dinsert m kv.1
                (markInherited (resolveAttribute dictAttrs kv.2 parentName)))
            m
        | none => m)
      []
    let own := obj.attributes.foldl
      (fun m kv => dinsert m kv.1 (resolveAttribute dictAttrs kv.2 name)) []
    let allAttrs := own.foldl (fun m kv => dinsert m kv.1 kv.2) inherited
    some
      { name := name, caption := obj.caption, description := obj.description
        extendsName := obj.extendsName, inheritance_chain := chain
        own_attributes := own, inherited_attributes := inherited
        all_attributes := allAttrs }

theorem dlookup_foldl_dinsert_not_mem {β : Type} (g : String × β → ResolvedAttributeS) :
    ∀ (l : List (String × β)) (init : List (String × ResolvedAttributeS))
      (k : String), k ∉ l.map Prod.fst →
      dlookup k (l.foldl (fun m kv => dinsert m kv.1 (g kv)) init) =
        dlookup k init := by
  intro l
  induction l with
  | nil => intro init k _; rfl
  | cons hd tl ih =>
    intro init k hk
    simp only [List.map_cons, List.mem_cons] at hk
    push_neg at hk
    rw [List.foldl_cons, ih _ k hk.2, dlookup_dinsert_ne _ _ (Ne.symm hk.1)]

theorem dlookup_foldl_dinsert_map {β : Type} (g : String × β → ResolvedAttributeS) :
    ∀ (l : List (String × β)) (init : List (String × ResolvedAttributeS))
      (k : String) (b : β), (l.map Prod.fst).Nodup → dlookup k l = some b →
      dlookup k (l.foldl (fun m kv => dinsert m kv.1 (g kv)) init) =
        some (g (k, b)) := by
  intro l
  induction l with
  | nil => intro init k b _ h; simp [dlookup] at h
  | cons hd tl ih =>
    intro init k b hnd h
    obtain ⟨k₁, b₁⟩ := hd
    simp only [List.map_cons, List.nodup_cons] at hnd
    by_cases hk : k₁ = k
    · subst hk
      rw [dlookup] at h
      simp at h
      subst h
      rw [List.foldl_cons,
        dlookup_foldl_dinsert_not_mem g tl _ k₁ hnd.1,
        dlookup_dinsert_self]
    · rw [dlookup, if_neg hk] at h
      rw [List.foldl_cons]
      exact ih _ k b hnd.2 h

theorem foldl_dinsert_keys_nodup {β : Type} (g : String × β → ResolvedAttributeS) :
    ∀ (l : List (String × β)) (init : List (String × ResolvedAttributeS)),
      (init.map Prod.fst).Nodup →
      ((l.foldl (fun m kv => dinsert m kv.1 (g kv)) init).map Prod.fst).Nodup := by
  intro l
  induction l with
  | nil => intro init h; exact h
  | cons hd tl ih =>
    intro init h
    rw [List.foldl_cons]
    apply ih
    by_cases hk : hd.1 ∈ init.map Prod.fst
    · rw [dinsert_keys_of_mem _ _ hk]; exact h
    · rw [dinsert_keys_of_not_mem _ _ hk]
      simp [List.nodup_append, h, hk]

/-- **C6**: when an attribute name is defined both by an ancestor on the
inheritance chain and by the entity itself, the merged `all_attributes`
yields the entity's own resolved version of the attribute, and that version
carries `is_inherited = false`. -/
theorem C6_attribute_override (entities : List (String × RawEntity))
    (dictAttrs : List (String × DictAttr)) (name : String) (obj : RawEntity)
    (attrName : String) (rawAttr : OcsfAttributeS)
    (hobj : dlookup name entities = some obj)
    (hattr : dlookup attrName obj.attributes = some rawAttr)
    (hnodup : (obj.attributes.map Prod.fst).Nodup)
    (hanc : ∃ p ∈ (buildInheritanceChain entities name).tail, ∃ pobj,
      dlookup p entities = some pobj ∧ attrName ∈ pobj.attributes.map Prod.fst) :
    ∃ r, resolveEntity entities dictAttrs name = some r ∧
      dlookup attrName r.all_attributes =
        some (resolveAttribute dictAttrs rawAttr name) ∧
      (resolveAttribute dictAttrs rawAttr name).is_inherited = false := by
  refine ⟨_, by rw [resolveEntity, hobj], ?_, rfl⟩
  have hown : dlookup attrName
      (obj.attributes.foldl
        (fun m kv => dinsert m kv.1 (resolveAttribute dictAttrs kv.2 name)) []) =
      some (resolveAttribute dictAttrs rawAttr name) :=
    dlookup_foldl_dinsert_map
      (fun kv => resolveAttribute dictAttrs kv.2 name)
      obj.attributes [] attrName rawAttr hnodup hattr
  have hownnodup : ((obj.attributes.foldl
      (fun m kv => dinsert m kv.1 (resolveAttribute dictAttrs kv.2 name))
      []).map Prod.fst).Nodup :=
    foldl_dinsert_keys_nodup _ obj.attributes [] List.nodup_nil
  exact dlookup_foldl_dinsert_map Prod.snd _ _ attrName
    (resolveAttribute dictAttrs rawAttr name) hownnodup hown

/-- Concrete two-entity schema for the C6 witness: `b extends a`, both
define attribute `x`. -/
def c6Entities : List (String × RawEntity) :=
  [("a", { attributes := [("x", { name := "x", caption := "XA" })] }),
   ("b", { extendsName := some "a"
           attributes := [("x", { name := "x", caption := "XB" })] })]

/-- Witness for C6 at the concrete schema `c6Entities`. -/
theorem C6_attribute_override_witness :
    ∃ r, resolveEntity c6Entities [] "b" = some r ∧
      dlookup "x" r.all_attributes =
        some (resolveAttribute [] { name := "x", caption := "XB" } "b") ∧
      (resolveAttribute [] { name := "x", caption := "XB" } "b").is_inherited =
        false :=
  C6_attribute_override c6Entities [] "b"
    { extendsName := some "a"
      attributes := [("x", { name := "x", caption := "XB" })] }
    "x" { name := "x", caption := "XB" } (by decide) (by decide) (by decide)
    ⟨"a", by decide, { attributes := [("x", { name := "x", caption := "XA" })] },
      by decide, by decide⟩

/-! ## Schema loader validation (`schema_loader.py`)

The filesystem is modelled as a predicate `fs : String → Bool` telling which
paths exist; `Path(root) / name` is `root ++ "/" ++ name`. -/

/-- The three required top-level files, in the order the source checks them:
version descriptor, shared-dictionary descriptor, category descriptor. -/
def requiredFiles : List String :=
  ["version.json", "dictionary.json", "categories.json"]

/-- The loop body of `SchemaLoader._validate_path`: check each required file
in order, raising `FileNotFoundError` naming the offending path for the
first missing one. -/
def checkRequiredFiles (fs : String → Bool) (root : String) :
    List String → Except String Unit
  | [] => .ok ()
  | f :: rest =>
    if fs (root ++ "/" ++ f) = false then
      .error ("Required file not found: " ++ (root ++ "/" ++ f))
    else checkRequiredFiles fs root rest

/-- `SchemaLoader._validate_path`, which `SchemaLoader.__init__` runs
immediately: the root must exist, then every required file must exist. -/
def validatePath (fs : String → Bool) (root : String) : Except String Unit :=
  if fs root = false then .error ("Schema path does not exist: " ++ root)
  else checkRequiredFiles fs root requiredFiles

/-- `SchemaLoader(root)`: the constructor performs exactly the validation. -/
def schemaLoaderInit (fs : String → Bool) (root : String) :
    Except String Unit :=
  validatePath fs root

theorem checkRequiredFiles_error (fs : String → Bool) (root : String) :
    ∀ files f, f ∈ files → fs (root ++ "/" ++ f) = false →
      ∃ f₂, f₂ ∈ files ∧ fs (root ++ "/" ++ f₂) = false ∧
        checkRequiredFiles fs root files =
          .error ("Required file not found: " ++ (root ++ "/" ++ f₂)) := by
  intro files
  induction files with
  | nil => intro f h; simp at h
  | cons g rest ih =>
    intro f hf hmiss
    by_cases hg : fs (root ++ "/" ++ g) = false
    · exact ⟨g, List.mem_cons_self g rest, hg,
        by rw [checkRequiredFiles, if_pos hg]⟩
    · have hfr : f ∈ rest := by
        rcases List.mem_cons.1 hf with h | h
        · subst h; exact absurd hmiss hg
        · exact h
      obtain ⟨f₂, hf₂, hm₂, he₂⟩ := ih f hfr hmiss
      refine ⟨f₂, List.mem_cons_of_mem _ hf₂, hm₂, ?_⟩
      rw [checkRequiredFiles, if_neg hg, he₂]

/-- **C8**: constructing a `SchemaLoader` over a root that exists but lacks
any of the three required top-level files fails immediately with an error
whose message names a missing required file's full path (the first missing
one); the missing file is never silently defaulted into a success. -/
theorem C8_loader_missing_required_file (fs : String → Bool) (root f : String)
    (hroot : fs root = true) (hf : f ∈ requiredFiles)
    (hmiss : fs (root ++ "/" ++ f) = false) :
    ∃ f₂, f₂ ∈ requiredFiles ∧ fs (root ++ "/" ++ f₂) = false ∧
      schemaLoaderInit fs root =
        .error ("Required file not found: " ++ (root ++ "/" ++ f₂)) := by
  have : validatePath fs root = checkRequiredFiles fs root requiredFiles := by
    rw [validatePath, if_neg (by rw [hroot]; simp)]
  obtain ⟨f₂, h₁, h₂, h₃⟩ := checkRequiredFiles_error fs root requiredFiles f hf hmiss
  exact ⟨f₂, h₁, h₂, by rw [schemaLoaderInit, this, h₃]⟩

/-- Witness for C8: a filesystem with the root and two of the three required
files, `dictionary.json` missing. -/
theorem C8_loader_missing_required_file_witness :
    ∃ f₂, f₂ ∈ requiredFiles ∧
      (fun p => decide (p ∈ ["root", "root/version.json", "root/categories.json"]))
          ("root" ++ "/" ++ f₂) = false ∧
      schemaLoaderInit
          (fun p => decide (p ∈ ["root", "root/version.json", "root/categories.json"]))
          "root" =
        .error ("Required file not found: " ++ ("root" ++ "/" ++ f₂)) :=
  C8_loader_missing_required_file
    (fun p => decide (p ∈ ["root", "root/version.json", "root/categories.json"]))
    "root" "dictionary.json" (by decide) (by decide) (by decide)

/-! ## Type mapper (`type_mapper.py`) -/

/-- The fields of `TypeMapping` read by the embedded functions
(`sqlalchemy_type`, `max_length`; the import string, postgres type, category
and nullability default are never read by an embedded function). -/
structure TypeMappingS where
  sqlalchemy_type : String
  max_length : Option Nat := none
deriving DecidableEq

/-- `TypeMapper.TYPE_MAPPINGS` (all 19 entries, in source order). -/
def typeMappings : List (String × TypeMappingS) :=
  [("string_t", { sqlalchemy_type := "Text" }),
   ("integer_t", { sqlalchemy_type := "Integer" }),
   ("long_t", { sqlalchemy_type := "BigInteger" }),
   ("float_t", { sqlalchemy_type := "Float" }),
   ("boolean_t", { sqlalchemy_type := "Boolean" }),
   ("timestamp_t", { sqlalchemy_type := "BigInteger" }),
   ("datetime_t", { sqlalchemy_type := "DateTime" }),
   ("ip_t", { sqlalchemy_type := "INET" }),
   ("mac_t", { sqlalchemy_type := "String", max_length := some 17 }),
   ("subnet_t", { sqlalchemy_type := "CIDR" }),
   ("port_t", { sqlalchemy_type := "Integer" }),
   ("hostname_t", { sqlalchemy_type := "String", max_length := some 253 }),
   ("email_t", { sqlalchemy_type := "String", max_length := some 254 }),
   ("url_t", { sqlalchemy_type := "Text" }),
   ("json_t", { sqlalchemy_type := "Text" }),
   ("uuid_t", { sqlalchemy_type := "Uuid" }),
   ("path_t", { sqlalchemy_type := "Text" }),
   ("file_hash_t", { sqlalchemy_type := "String", max_length := some 128 }),
   ("bytestring_t", { sqlalchemy_type := "LargeBinary" })]

/-- `TypeMapper.DEFAULT_MAPPING`. -/
def defaultMapping : TypeMappingS := { sqlalchemy_type := "Text" }

/-- `TypeMapper.get_mapping` (the pipeline never registers custom mappings,
so the custom-mapping dictionary is always empty). -/
def getMapping (t : String) : TypeMappingS :=
  (dlookup t typeMappings).getD defaultMapping

/-- `TypeMapping.get_column_definition`. -/
def getColumnDefinition (m : TypeMappingS) : String :=
  match m.max_length with
  | some n => m.sqlalchemy_type ++ "(" ++ toString n ++ ")"
  | none => m.sqlalchemy_type

/-- `TypeMapper.get_sqlalchemy_type`. -/
def getSqlalchemyType (t : String) : String := getColumnDefinition (getMapping t)

/-- `TypeMapper.is_object_type`: the name does not end in `_t` and is not a
key of the mapping table. -/
def isObjectType (t : String) : Bool :=
  !(List.isSuffixOf "_t".data t.data) && !(typeMappings.map Prod.fst).contains t

/-! ## Schema analyzer (`schema_analyzer.py`) -/

/-- `RelationshipInfo`. -/
structure RelationshipInfoS where
  source_entity : String
  attribute_name : String
  target_entity : String
  is_array : Bool
  is_nullable : Bool
  relationship_type : String
deriving DecidableEq

/-- `SchemaAnalyzer._analyze_attribute_relationship`: an attribute is a
relationship when its `object_type` is truthy, or when its `ocsf_type` is
truthy and `is_object_type` holds of it; array targets become
`association_table`, non-array `foreign_key`. -/
def analyzeAttributeRelationship (entityName : String)
    (attr : ResolvedAttributeS) : Option RelationshipInfoS :=
  let target? : Option String :=
    if isTruthy attr.object_type then attr.object_type
    else if isTruthy attr.ocsf_type && isObjectType (attr.ocsf_type.getD "") then
      attr.ocsf_type
    else none
  match target? with
  | none => none
  | some target =>
    some
      { source_entity := entityName, attribute_name := attr.name
        target_entity := target, is_array := attr.is_array
        is_nullable := decide (attr.requirement ≠ "required")
        relationship_type :=
          if attr.is_array then "association_table" else "foreign_key" }

/-- One element of the list `get_entity_columns` returns (a Python dict;
foreign-key entries carry `references` and no `description`, plain entries
the reverse — modelled with defaulted fields). -/
structure EntityColumnS where
  name : String
  type : String
  nullable : Bool
  is_foreign_key : Bool
  references : Option String := none
  description : String := ""
deriving DecidableEq

/-- The column-building loop of `SchemaAnalyzer.get_entity_columns` over the
resolved entity's own attributes: arrays are skipped; an attribute with a
truthy `object_type` or with `is_object_type(attr.ocsf_type or "")` becomes
a foreign-key column named `<name>_id`; every other attribute becomes a
plain column typed via the mapper at `attr.ocsf_type or "string_t"`. -/
def getEntityColumns (own : List (String × ResolvedAttributeS)) :
    List EntityColumnS :=
  own.foldl
    (fun cols kv =>
      let attr := kv.2
      if attr.is_array then cols
      else if isTruthy attr.object_type || isObjectType (attr.ocsf_type.getD "") then
        cols ++ [{ name := attr.name ++ "_id", type := "Integer"
                   nullable := decide (attr.requirement ≠ "required")
                   is_foreign_key := true
                   references := pyOrStr attr.object_type attr.ocsf_type }]
      else
        cols ++ [{ name := attr.name
                   type := getSqlalchemyType
                     (match attr.ocsf_type with
                      | some s => if s = "" then "string_t" else s
                      | none => "string_t")
                   nullable := decide (attr.requirement ≠ "required")
                   is_foreign_key := false
                   description := attr.description }])
    []

/-- **C3** (code bug): at an attribute with no resolved type and no object
reference, `get_entity_columns` reports a foreign-key column (because
`is_object_type("")` is true), while `analyze()`'s relationship inference
reports no relationship for the very same attribute — the helper diverges
from `analyze()`, and the claim/spec say a typeless attribute must be a
plain column defaulting to string. -/
theorem C3_get_entity_columns_divergence :
    isObjectType "" = true ∧
    getEntityColumns
        [("x", { name := "x", caption := "X", description := "" })] =
      [{ name := "x_id", type := "Integer", nullable := true
         is_foreign_key := true, references := none }] ∧
    analyzeAttributeRelationship "e"
        { name := "x", caption := "X", description := "" } = none := by
  decide

/-! ## Code generator import collection (`code_generator.py`) -/

/-- `ColumnInfo` as read by `_collect_imports` (the template-only fields
`name`, `python_type`, `references_table`, `description` do not influence
imports and are omitted; `name` is kept for concreteness). -/
structure ColumnInfoS where
  name : String := ""
  sqlalchemy_type : String := ""
  nullable : Bool := true
  is_foreign_key : Bool := false
  ocsf_type : Option String := none
deriving DecidableEq

/-- `sa_type.split("(")[0]`: the base type name without a length suffix. -/
def baseTypeName (s : String) : String :=
  ⟨s.data.takeWhile fun c => decide (c.toNat ≠ 40)⟩

/-- The scalar-type part of `ImportInfo` — the `sqlalchemy_types` set (an
insertion-ordered duplicate-free list) and the two PostgreSQL dialect
flags.  Steps 1–2 of `_collect_imports` fill the parent-class and
relationship-class import fields, which are disjoint from these three and
are not touched by the scalar-type/dialect minimality claim. -/
structure ImportTypesS where
  sqlalchemy_types : List String := []
  needs_inet : Bool := false
  needs_cidr : Bool := false
deriving DecidableEq

/-- The context fields of `_collect_imports` feeding the scalar-type
imports. -/
structure GenContextS where
  extendsName : Option String := none
  columns : List ColumnInfoS := []
  is_polymorphic_base : Bool := false
deriving DecidableEq

/-- Add one scalar-type name to the `sqlalchemy_types` set. -/
def addType (imp : ImportTypesS) (n : String) : ImportTypesS :=
  { imp with sqlalchemy_types := setInsert imp.sqlalchemy_types n }

@[simp] theorem addType_needs_inet (imp : ImportTypesS) (n : String) :
    (addType imp n).needs_inet = imp.needs_inet := rfl

@[simp] theorem addType_needs_cidr (imp : ImportTypesS) (n : String) :
    (addType imp n).needs_cidr = imp.needs_cidr := rfl

/-- The body of the column loop of `_collect_imports` (step 3): skip a
column with a falsy `ocsf_type`; route `INET`/`CIDR` to the dialect flags;
otherwise add the base SQLAlchemy type name to the set. -/
def collectColumnStep (imp : ImportTypesS) (col : ColumnInfoS) : ImportTypesS :=
  match col.ocsf_type with
  | none => imp
  | some t =>
    if t = "" then imp
    else
      let saType := (getMapping t).sqlalchemy_type
      if saType = "INET" then { imp with needs_inet := true }
      else if saType = "CIDR" then { imp with needs_cidr := true }
      else addType imp (baseTypeName saType)

/-- The column loop of `_collect_imports` (step 3). -/
def collectColumnTypes (cols : List ColumnInfoS) (init : ImportTypesS) :
    ImportTypesS :=
  cols.foldl collectColumnStep init

/-- `CodeGenerator._collect_imports`, scalar-type part: the column loop,
then `ForeignKey` when any foreign-key column exists, then `ForeignKey`
when the entity extends a parent, then `String` for the discriminator of a
polymorphic base without a parent of its own. -/
def collectImportTypes (ctx : GenContextS) : ImportTypesS :=
  let s₃ := collectColumnTypes ctx.columns {}
  let s₄ :=
    if ctx.columns.any (fun col => col.is_foreign_key) then
      addType s₃ "ForeignKey"
    else s₃
  let s₅ := if isTruthy ctx.extendsName then addType s₄ "ForeignKey" else s₄
  if ctx.is_polymorphic_base && !isTruthy ctx.extendsName then
    addType s₅ "String"
  else s₅

/-- The PostgreSQL dialect import list assembled by `_add_file_header`
(`INET` then `CIDR`, each exactly when flagged; the dialect import line is
emitted only when this list is non-empty). -/
def dialectImportList (imp : ImportTypesS) : List String :=
  (if imp.needs_inet then ["INET"] else []) ++
    (if imp.needs_cidr then ["CIDR"] else [])

/-- A column whose truthy `ocsf_type` maps to the dialect type `d`. -/
def columnUsesDialect (col : ColumnInfoS) (d : String) : Bool :=
  match col.ocsf_type with
  | some t => decide (t ≠ "") && decide ((getMapping t).sqlalchemy_type = d)
  | none => false

/-- **C4** (counterexample): a generated file for an entity with zero own
columns and no parent can still import a scalar-type symbol — when the
entity is a polymorphic base, `_collect_imports` adds the discriminator
type `String`, so the claim as stated is false. -/
theorem C4_import_minimality_counterexample :
    "String" ∈ (collectImportTypes
      { extendsName := none, columns := [],
        is_polymorphic_base := true }).sqlalchemy_types := by
  decide

theorem collectColumnStep_needs_inet (imp : ImportTypesS) (c : ColumnInfoS) :
    (collectColumnStep imp c).needs_inet =
      (imp.needs_inet || columnUsesDialect c "INET") := by
  rw [collectColumnStep]
  cases hoc : c.ocsf_type with
  | none => simp [columnUsesDialect, hoc]
  | some t =>
    by_cases ht : t = ""
    · subst ht
      simp [columnUsesDialect, hoc]
    · by_cases hinet : (getMapping t).sqlalchemy_type = "INET"
      · simp [columnUsesDialect, hoc, ht, hinet]
      · by_cases hcidr : (getMapping t).sqlalchemy_type = "CIDR"
        · simp [columnUsesDialect, hoc, ht, hinet, hcidr]
        · simp [columnUsesDialect, hoc, ht, hinet, hcidr]

theorem collectColumnStep_needs_cidr (imp : ImportTypesS) (c : ColumnInfoS) :
    (collectColumnStep imp c).needs_cidr =
      (imp.needs_cidr || columnUsesDialect c "CIDR") := by
  rw [collectColumnStep]
  cases hoc : c.ocsf_type with
  | none => simp [columnUsesDialect, hoc]
  | some t =>
    by_cases ht : t = ""
    · subst ht
      simp [columnUsesDialect, hoc]
    · by_cases hinet : (getMapping t).sqlalchemy_type = "INET"
      · have hne : ¬(getMapping t).sqlalchemy_type = "CIDR" := by
          rw [hinet]
          decide
        simp [columnUsesDialect, hoc, ht, hinet, hne]
      · by_cases hcidr : (getMapping t).sqlalchemy_type = "CIDR"
        · simp [columnUsesDialect, hoc, ht, hinet, hcidr]
        · simp [columnUsesDialect, hoc, ht, hinet, hcidr]

theorem collectColumnTypes_needs_inet (cols : List ColumnInfoS) :
    ∀ init, (collectColumnTypes cols init).needs_inet =
      (init.needs_inet || cols.any fun col => columnUsesDialect col "INET") := by
  induction cols with
  | nil => intro init; simp [collectColumnTypes]
  | cons c rest ih =>
    intro init
    have hstep : collectColumnTypes (c :: rest) init =
        collectColumnTypes rest (collectColumnStep init c) := rfl
    rw [hstep, ih, List.any_cons, collectColumnStep_needs_inet, Bool.or_assoc]

theorem collectColumnTypes_needs_cidr (cols : List ColumnInfoS) :
    ∀ init, (collectColumnTypes cols init).needs_cidr =
      (init.needs_cidr || cols.any fun col => columnUsesDialect col "CIDR") := by
  induction cols with
  | nil => intro init; simp [collectColumnTypes]
  | cons c rest ih =>
    intro init
    have hstep : collectColumnTypes (c :: rest) init =
        collectColumnTypes rest (collectColumnStep init c) := rfl
    rw [hstep, ih, List.any_cons, collectColumnStep_needs_cidr, Bool.or_assoc]

theorem collectImportTypes_needs_inet (ctx : GenContextS) :
    (collectImportTypes ctx).needs_inet =
      ctx.columns.any fun col => columnUsesDialect col "INET" := by
  have h₃ : (collectColumnTypes ctx.columns {}).needs_inet =
      (ctx.columns.any fun col => columnUsesDialect col "INET") := by
    rw [collectColumnTypes_needs_inet]
    rfl
  rw [collectImportTypes]
  split_ifs <;> simpa using h₃

theorem collectImportTypes_needs_cidr (ctx : GenContextS) :
    (collectImportTypes ctx).needs_cidr =
      ctx.columns.any fun col => columnUsesDialect col "CIDR" := by
  have h₃ : (collectColumnTypes ctx.columns {}).needs_cidr =
      (ctx.columns.any fun col => columnUsesDialect col "CIDR") := by
    rw [collectColumnTypes_needs_cidr]
    rfl
  rw [collectImportTypes]
  split_ifs <;> simpa using h₃

/-- **C4** (amended): for `_collect_imports`, an entity with zero own
columns, no parent and no children gets an empty scalar-type import set and
no dialect import; a parentless polymorphic base with zero own columns
additionally imports exactly the discriminator type `String`; the dialect
flags hold exactly when some column's truthy `ocsf_type` maps to that
dialect type, and a file using exactly one dialect-specific scalar type gets
exactly that dialect type in its dialect import list. -/
theorem C4_import_minimality_amended :
    (∀ ctx : GenContextS, ctx.columns = [] → ctx.extendsName = none →
      ctx.is_polymorphic_base = false →
      (collectImportTypes ctx).sqlalchemy_types = [] ∧
        (collectImportTypes ctx).needs_inet = false ∧
        (collectImportTypes ctx).needs_cidr = false) ∧
    (∀ ctx : GenContextS, ctx.columns = [] → ctx.extendsName = none →
      ctx.is_polymorphic_base = true →
      (collectImportTypes ctx).sqlalchemy_types = ["String"] ∧
        (collectImportTypes ctx).needs_inet = false ∧
        (collectImportTypes ctx).needs_cidr = false) ∧
    (∀ ctx : GenContextS,
      (collectImportTypes ctx).needs_inet =
        (ctx.columns.any fun col => columnUsesDialect col "INET") ∧
      (collectImportTypes ctx).needs_cidr =
        (ctx.columns.any fun col => columnUsesDialect col "CIDR")) ∧
    (∀ ctx : GenContextS,
      ((ctx.columns.any fun col => columnUsesDialect col "INET") = true →
        (ctx.columns.any fun col => columnUsesDialect col "CIDR") = false →
        dialectImportList (collectImportTypes ctx) = ["INET"]) ∧
      ((ctx.columns.any fun col => columnUsesDialect col "CIDR") = true →
        (ctx.columns.any fun col => columnUsesDialect col "INET") = false →
        dialectImportList (collectImportTypes ctx) = ["CIDR"])) := by
  refine ⟨?_, ?_, ?_, ?_⟩
  · intro ctx h₁ h₂ h₃
    cases ctx with
    | mk e cols poly =>
      simp only at h₁ h₂ h₃
      subst h₁; subst h₂; subst h₃
      decide
  · intro ctx h₁ h₂ h₃
    cases ctx with
    | mk e cols poly =>
      simp only at h₁ h₂ h₃
      subst h₁; subst h₂; subst h₃
      decide
  · intro ctx
    exact ⟨collectImportTypes_needs_inet ctx, collectImportTypes_needs_cidr ctx⟩
  · intro ctx
    constructor
    · intro hi hc
      rw [dialectImportList, collectImportTypes_needs_inet ctx,
        collectImportTypes_needs_cidr ctx, hi, hc]
      rfl
    · intro hc hi
      rw [dialectImportList, collectImportTypes_needs_inet ctx,
        collectImportTypes_needs_cidr ctx, hi, hc]
      rfl

/-- Witness for the amended C4 at concrete contexts: an empty non-base
context imports nothing, and a context with exactly one `ip_t` column gets
exactly the `INET` dialect import. -/
theorem C4_import_minimality_amended_witness :
    (collectImportTypes
        { extendsName := none, columns := [],
          is_polymorphic_base := false }).sqlalchemy_types = [] ∧
    dialectImportList
        (collectImportTypes
          { extendsName := none,
            columns := [{ sqlalchemy_type := "INET", ocsf_type := some "ip_t" }],
            is_polymorphic_base := false }) = ["INET"] :=
  ⟨(C4_import_minimality_amended.1 _ rfl rfl rfl).1,
    (C4_import_minimality_amended.2.2.2 _).1 (by decide) (by decide)⟩

/-! ## Object filter (`object_filter.py`) -/

/-- The per-attribute reference extraction of
`ObjectFilter._get_object_dependencies`: a truthy explicit `object_type`,
else a truthy `ocsf_type` that names a known object. -/
def attrDirectObjectRef (objKeys : List String) (a : ResolvedAttributeS) :
    Option String :=
  if isTruthy a.object_type then a.object_type
  else if isTruthy a.ocsf_type && objKeys.contains (a.ocsf_type.getD "") then
    a.ocsf_type
  else none

/-- The attribute test of `_find_related_events`: a truthy `object_type`
naming an included object (note: unlike `_get_object_dependencies`, the
`ocsf_type` is never consulted). -/
def attrRefsIncludedObject (included : List String)
    (a : ResolvedAttributeS) : Bool :=
  match a.object_type with
  | some t => decide (t ≠ "") && included.contains t
  | none => false

/-- The per-event test of `_find_related_events` (the source's inner loop
with `break` is an existential over the merged attribute map). -/
def eventRefsIncluded (included : List String) (e : ResolvedEntityS) : Bool :=
  e.all_attributes.any fun av => attrRefsIncludedObject included av.2

/-- `ObjectFilter._find_related_events`: one pass over all events, adding
an event as soon as one of its attributes' `object_type` names an included
object; the result set is an insertion-ordered duplicate-free list. -/
def findRelatedEvents (events : List (String × ResolvedEntityS))
    (includedObjects : List String) : List String :=
  events.foldl
    (fun acc kv =>
      if eventRefsIncluded includedObjects kv.2 then setInsert acc kv.1 else acc)
    []

theorem mem_setInsert (l : List String) (x n : String) :
    n ∈ setInsert l x ↔ n ∈ l ∨ n = x := by
  unfold setInsert
  by_cases h : x ∈ l
  · rw [if_pos h]
    constructor
    · exact Or.inl
    · rintro (hn | rfl)
      · exact hn
      · exact h
  · rw [if_neg h]
    simp

theorem mem_findRelatedEvents_aux (included : List String) :
    ∀ (events : List (String × ResolvedEntityS)) (acc : List String)
      (n : String),
      n ∈ events.foldl
          (fun acc kv =>
            if eventRefsIncluded included kv.2 then setInsert acc kv.1
            else acc) acc ↔
        n ∈ acc ∨ ∃ e, (n, e) ∈ events ∧ eventRefsIncluded included e = true := by
  intro events
  induction events with
  | nil => intro acc n; simp
  | cons kv rest ih =>
    intro acc n
    obtain ⟨m, e⟩ := kv
    rw [List.foldl_cons]
    by_cases h : eventRefsIncluded included e = true
    · rw [if_pos h, ih, mem_setInsert]
      constructor
      · rintro ((hn | rfl) | ⟨e₂, he₂, hr₂⟩)
        · exact Or.inl hn
        · exact Or.inr ⟨e, List.mem_cons_self _ _, h⟩
        · exact Or.inr ⟨e₂, List.mem_cons_of_mem _ he₂, hr₂⟩
      · rintro (hn | ⟨e₂, he₂, hr₂⟩)
        · exact Or.inl (Or.inl hn)
        · rcases List.mem_cons.1 he₂ with heq | he₂
          · obtain ⟨rfl, rfl⟩ := Prod.mk.injEq .. ▸ heq
            exact Or.inl (Or.inr rfl)
          · exact Or.inr ⟨e₂, he₂, hr₂⟩
    · rw [if_neg h, ih]
      constructor
      · rintro (hn | ⟨e₂, he₂, hr₂⟩)
        · exact Or.inl hn
        · exact Or.inr ⟨e₂, List.mem_cons_of_mem _ he₂, hr₂⟩
      · rintro (hn | ⟨e₂, he₂, hr₂⟩)
        · exact Or.inl hn
        · rcases List.mem_cons.1 he₂ with heq | he₂
          · obtain ⟨rfl, rfl⟩ := Prod.mk.injEq .. ▸ heq
            exact absurd hr₂ h
          · exact Or.inr ⟨e₂, he₂, hr₂⟩

theorem attrRefsIncludedObject_iff (included : List String)
    (a : ResolvedAttributeS) :
    attrRefsIncludedObject included a = true ↔
      ∃ t, a.object_type = some t ∧ t ≠ "" ∧ t ∈ included := by
  unfold attrRefsIncludedObject
  cases ha : a.object_type with
  | none => simp
  | some t => simp [List.contains]

/-- **C7** (counterexample): an event whose attribute references an
included object directly — per the program's own object-reference relation
`_get_object_dependencies`, here through its `ocsf_type` naming the object
`device` — is nevertheless not added by `_find_related_events`, so the
claimed "if and only if some attribute references an included object
directly" is false. -/
theorem C7_event_inclusion_counterexample :
    attrDirectObjectRef ["device"]
        { name := "d", caption := "", description := "",
          ocsf_type := some "device" } = some "device" ∧
    "device" ∈ ["device"] ∧
    "ev" ∉ findRelatedEvents
        [("ev", { name := "ev", caption := "", description := ""
                  all_attributes :=
                    [("d", { name := "d", caption := "", description := ""
                             ocsf_type := some "device" })] })]
        ["device"] := by
  decide

/-- **C7** (amended): with event inclusion requested, an event is added if
and only if at least one of its attributes carries a truthy explicit
`object_type` naming an included object — regardless of the attribute's
array flag, never through a transitive reference, and never through an
`ocsf_type`-only reference. -/
theorem C7_event_inclusion_amended (events : List (String × ResolvedEntityS))
    (included : List String) (n : String) :
    n ∈ findRelatedEvents events included ↔
      ∃ e, (n, e) ∈ events ∧ ∃ av ∈ e.all_attributes, ∃ t,
        av.2.object_type = some t ∧ t ≠ "" ∧ t ∈ included := by
  rw [findRelatedEvents, mem_findRelatedEvents_aux]
  simp only [List.not_mem_nil, false_or]
  constructor
  · rintro ⟨e, he, hr⟩
    obtain ⟨av, hav, ha⟩ := List.any_eq_true.1 hr
    exact ⟨e, he, av, hav, (attrRefsIncludedObject_iff included av.2).1 ha⟩
  · rintro ⟨e, he, av, hav, t, ht, htne, hti⟩
    exact ⟨e, he, List.any_eq_true.2
      ⟨av, hav, (attrRefsIncludedObject_iff included av.2).2 ⟨t, ht, htne, hti⟩⟩⟩

/-- `ObjectFilter._get_object_dependencies`: the set of objects the given
object references through any merged attribute (truthy `object_type`, else
truthy `ocsf_type` naming a known object). -/
def getObjectDependencies (objects : List (String × ResolvedEntityS))
    (objName : String) : List String :=
  match dlookup objName objects with
  | none => []
  | some obj =>
    obj.all_attributes.foldl
      (fun deps av =>
        match attrDirectObjectRef (objects.map Prod.fst) av.2 with
        | some t => setInsert deps t
        | none => deps)
      []

/-- The dequeue loop of `ObjectFilter._bfs_traverse`, with explicit fuel.
State: included set (insertion-ordered), depth map, FIFO queue of
(name, depth) pairs.  Already-included and unknown names are skipped; a
processed name is recorded with its depth; expansion stops at `max_depth`;
dependencies not yet included are enqueued one level deeper. -/
def bfsGo (objects : List (String × ResolvedEntityS)) (maxDepth : Nat) :
    Nat → List String → List (String × Nat) → List (String × Nat) →
      List String × List (String × Nat)
  | 0, included, depths, _ => (included, depths)
  | fuel + 1, included, depths, queue =>
    match queue with
    | [] => (included, depths)
    | (objName, depth) :: qrest =>
      if objName ∈ included then
        bfsGo objects maxDepth fuel included depths qrest
      else if (objects.map Prod.fst).contains objName = false then
        bfsGo objects maxDepth fuel included depths qrest
      else
        let included₂ := included ++ [objName]
        let depths₂ := dinsert depths objName depth
        if maxDepth ≤ depth then
          bfsGo objects maxDepth fuel included₂ depths₂ qrest
        else
          bfsGo objects maxDepth fuel included₂ depths₂
            (qrest ++
              ((getObjectDependencies objects objName).filter
                  fun d => d ∉ included₂).map
                fun d => (d, depth + 1))

/-- Fuel covering every iteration `_bfs_traverse` can make: the number of
dequeues is at most the number of enqueues, which is at most one (the root)
plus one per attribute of each object, since an object is processed — and
enqueues dependencies — at most once, and its dependency set has at most
one entry per attribute. -/
def bfsFuel (objects : List (String × ResolvedEntityS)) : Nat :=
  objects.foldl (fun n kv => n + kv.2.all_attributes.length) 1 + 1

/-- `ObjectFilter._bfs_traverse`. -/
def bfsTraverse (objects : List (String × ResolvedEntityS)) (core : String)
    (maxDepth : Nat) : List String × List (String × Nat) :=
  bfsGo objects maxDepth (bfsFuel objects) [] [] [(core, 0)]

/-- `ObjectFilter._add_inheritance_parents`: walk each included object's
inheritance chain past itself and collect every parent that is a known
object and not already included. -/
def addInheritanceParents (objects : List (String × ResolvedEntityS))
    (included : List String) : List String :=
  included.foldl
    (fun adds objName =>
      match dlookup objName objects with
      | none => adds
      | some obj =>
        obj.inheritance_chain.tail.foldl
          (fun adds p =>
            if p ∉ included ∧ (objects.map Prod.fst).contains p then
              setInsert adds p
            else adds)
          adds)
    []

/-- `FilterConfig`. -/
structure FilterConfigS where
  core_object : String
  max_depth : Nat := 3
  include_events : Bool := false
deriving DecidableEq

/-- `FilterResult` (sets as insertion-ordered duplicate-free lists). -/
structure FilterResultS where
  included_objects : List String
  object_depths : List (String × Nat)
  inheritance_additions : List String
  excluded_objects : List String
  included_events : List String
deriving DecidableEq

/-- `ObjectFilter.filter`, up to the returned `FilterResult`: the root must
exist; BFS-included objects and their depths, the inheritance additions,
the excluded set (all objects not included either way), and — when
requested — the referencing events.  (The rebuild of the reduced
`AnalyzedSchema` is embedded separately as
`rebuildParents`/`filterTopologicalSort`; the `ValueError` message is
abbreviated, the source also lists a sample of valid roots.) -/
def filterF (objects events : List (String × ResolvedEntityS))
    (config : FilterConfigS) : Except String FilterResultS :=
  if (objects.map Prod.fst).contains config.core_object = false then
    .error ("Core object " ++ config.core_object ++ " not found in schema")
  else
    let bfs := bfsTraverse objects config.core_object config.max_depth
    let included := bfs.1
    let depths := bfs.2
    let additions := addInheritanceParents objects included
    let allIncluded := included ++ additions
    let excluded := (objects.map Prod.fst).filter fun n => n ∉ allIncluded
    let includedEvents :=
      if config.include_events then findRelatedEvents events allIncluded
      else []
    .ok
      { included_objects := included, object_depths := depths
        inheritance_additions := additions, excluded_objects := excluded
        included_events := includedEvents }

/-- Concrete two-object schema for the C2 counterexample: `b extends a`
(so filtering from `b` at depth 0 includes `b` by BFS and pulls in `a` as
an inheritance addition). -/
def c2Objects : List (String × ResolvedEntityS) :=
  [("a", { name := "a", caption := "", description := ""
           inheritance_chain := ["a"] }),
   ("b", { name := "b", caption := "", description := ""
           extendsName := some "a", inheritance_chain := ["b", "a"] })]

/-- **C2** (counterexample): a filter invocation whose inheritance pass
pulls in a parent leaves that parent in neither `included_objects` nor
`excluded_objects`, so included ∪ excluded is strictly smaller than the
full object set. -/
theorem C2_filter_partition_counterexample :
    filterF c2Objects [] { core_object := "b", max_depth := 0 } =
      .ok { included_objects := ["b"], object_depths := [("b", 0)]
            inheritance_additions := ["a"], excluded_objects := []
            included_events := [] } ∧
    "a" ∈ c2Objects.map Prod.fst ∧
    "a" ∉ (["b"] : List String) ∧ "a" ∉ ([] : List String) :=
  ⟨rfl, by decide, by decide, by decide⟩

theorem mem_setInsert_of_mem (l : List String) (x n : String) (h : n ∈ l) :
    n ∈ setInsert l x := (mem_setInsert l x n).2 (Or.inl h)

theorem bfsGo_invariant (objects : List (String × ResolvedEntityS))
    (maxDepth : Nat) :
    ∀ fuel included depths queue,
      depths.map Prod.fst = included → included.Nodup →
      (∀ n ∈ included, n ∈ objects.map Prod.fst) →
      (bfsGo objects maxDepth fuel included depths queue).2.map Prod.fst =
          (bfsGo objects maxDepth fuel included depths queue).1 ∧
        (bfsGo objects maxDepth fuel included depths queue).1.Nodup ∧
        ∀ n ∈ (bfsGo objects maxDepth fuel included depths queue).1,
          n ∈ objects.map Prod.fst := by
  intro fuel
  induction fuel with
  | zero => intro included depths queue h₁ h₂ h₃; exact ⟨h₁, h₂, h₃⟩
  | succ f ih =>
    intro included depths queue h₁ h₂ h₃
    match queue with
    | [] => exact ⟨h₁, h₂, h₃⟩
    | (objName, depth) :: qrest =>
      rw [bfsGo]
      by_cases hin : objName ∈ included
      · rw [if_pos hin]
        exact ih included depths qrest h₁ h₂ h₃
      · rw [if_neg hin]
        by_cases hkey : (objects.map Prod.fst).contains objName = false
        · rw [if_pos hkey]
          exact ih included depths qrest h₁ h₂ h₃
        · rw [if_neg hkey]
          have hkey' : objName ∈ objects.map Prod.fst := by
            rw [Bool.not_eq_false] at hkey
            simpa using hkey
          have hd₂ : (dinsert depths objName depth).map Prod.fst =
              included ++ [objName] := by
            rw [dinsert_keys_of_not_mem _ _ (by rw [h₁]; exact hin), h₁]
          have hn₂ : (included ++ [objName]).Nodup := by
            simp [List.nodup_append, h₂, hin]
          have hk₂ : ∀ n ∈ included ++ [objName], n ∈ objects.map Prod.fst := by
            intro n hn
            rcases List.mem_append.1 hn with hn | hn
            · exact h₃ n hn
            · simp only [List.mem_singleton] at hn
              exact hn ▸ hkey'
          dsimp only
          by_cases hdep : maxDepth ≤ depth
          · rw [if_pos hdep]
            exact ih _ _ qrest hd₂ hn₂ hk₂
          · rw [if_neg hdep]
            exact ih _ _ _ hd₂ hn₂ hk₂

theorem addInheritanceParents_spec_aux₂
    (objects : List (String × ResolvedEntityS)) (included : List String) :
    ∀ (chain : List String) (acc : List String),
      (∀ p ∈ acc, p ∉ included ∧ p ∈ objects.map Prod.fst) →
      ∀ p ∈ chain.foldl
          (fun adds p =>
            if p ∉ included ∧ (objects.map Prod.fst).contains p then
              setInsert adds p
            else adds)
          acc,
        p ∉ included ∧ p ∈ objects.map Prod.fst := by
  intro chain
  induction chain with
  | nil => intro acc hacc; exact hacc
  | cons c rest ih =>
    intro acc hacc
    rw [List.foldl_cons]
    apply ih
    by_cases hc : c ∉ included ∧ (objects.map Prod.fst).contains c
    · rw [if_pos hc]
      intro p hp
      rcases (mem_setInsert acc c p).1 hp with hp | rfl
      · exact hacc p hp
      · exact ⟨hc.1, by simpa using hc.2⟩
    · rw [if_neg hc]
      exact hacc

theorem addInheritanceParents_spec_aux₁
    (objects : List (String × ResolvedEntityS)) (included : List String) :
    ∀ (iter : List String) (acc : List String),
      (∀ p ∈ acc, p ∉ included ∧ p ∈ objects.map Prod.fst) →
      ∀ p ∈ iter.foldl
          (fun adds objName =>
            match dlookup objName objects with
            | none => adds
            | some obj =>
              obj.inheritance_chain.tail.foldl
                (fun adds p =>
                  if p ∉ included ∧ (objects.map Prod.fst).contains p then
                    setInsert adds p
                  else adds)
                adds)
          acc,
        p ∉ included ∧ p ∈ objects.map Prod.fst := by
  intro iter
  induction iter with
  | nil => intro acc hacc; exact hacc
  | cons c rest ih =>
    intro acc hacc
    rw [List.foldl_cons]
    apply ih
    cases hlk : dlookup c objects with
    | none => exact hacc
    | some obj => exact addInheritanceParents_spec_aux₂ objects included _ acc hacc

theorem addInheritanceParents_spec
    (objects : List (String × ResolvedEntityS)) (included : List String) :
    ∀ p ∈ addInheritanceParents objects included,
      p ∉ included ∧ p ∈ objects.map Prod.fst := by
  rw [addInheritanceParents]
  exact addInheritanceParents_spec_aux₁ objects included included []
    (by intro p hp; simp at hp)

theorem filter_fst_length_eq_count (l : List (String × Nat)) (n : String) :
    (l.filter fun kv => kv.1 = n).length = (l.map Prod.fst).count n := by
  induction l with
  | nil => rfl
  | cons hd tl ih =>
    simp only [List.filter_cons, List.map_cons, List.count_cons]
    by_cases h : hd.1 = n
    · simp [h, ih]
    · simp [h, ih]

/-- **C2** (amended): for every filter invocation on a valid root, the
BFS-included set, the inheritance additions and the excluded set are
pairwise disjoint and together cover exactly the full object set; every
BFS-included object has exactly one recorded depth.  (The claim as stated
omits the inheritance additions from the partition — see the
counterexample.) -/
theorem C2_filter_partition_amended
    (objects events : List (String × ResolvedEntityS)) (config : FilterConfigS)
    (hroot : config.core_object ∈ objects.map Prod.fst) :
    ∃ res, filterF objects events config = .ok res ∧
      (∀ n, n ∈ objects.map Prod.fst ↔
        (n ∈ res.included_objects ∨ n ∈ res.inheritance_additions ∨
          n ∈ res.excluded_objects)) ∧
      (∀ n ∈ res.included_objects,
        n ∉ res.inheritance_additions ∧ n ∉ res.excluded_objects) ∧
      (∀ n ∈ res.inheritance_additions, n ∉ res.excluded_objects) ∧
      res.object_depths.map Prod.fst = res.included_objects ∧
      res.included_objects.Nodup ∧
      ∀ n ∈ res.included_objects,
        (res.object_depths.filter fun kv => kv.1 = n).length = 1 := by
  have hinv := bfsGo_invariant objects config.max_depth (bfsFuel objects) [] []
    [(config.core_object, 0)] rfl List.nodup_nil (by intro n hn; simp at hn)
  obtain ⟨hdep, hnod, hsub⟩ := hinv
  have hadds := addInheritanceParents_spec objects
    (bfsGo objects config.max_depth (bfsFuel objects) [] []
      [(config.core_object, 0)]).1
  refine
    ⟨{ included_objects :=
         (bfsGo objects config.max_depth (bfsFuel objects) [] []
           [(config.core_object, 0)]).1
       object_depths :=
         (bfsGo objects config.max_depth (bfsFuel objects) [] []
           [(config.core_object, 0)]).2
       inheritance_additions :=
         addInheritanceParents objects
           (bfsGo objects config.max_depth (bfsFuel objects) [] []
             [(config.core_object, 0)]).1
       excluded_objects :=
         (objects.map Prod.fst).filter fun n =>
           n ∉ (bfsGo objects config.max_depth (bfsFuel objects) [] []
                 [(config.core_object, 0)]).1 ++
               addInheritanceParents objects
                 (bfsGo objects config.max_depth (bfsFuel objects) [] []
                   [(config.core_object, 0)]).1
       included_events :=
         if config.include_events then
           findRelatedEvents events
             ((bfsGo objects config.max_depth (bfsFuel objects) [] []
                 [(config.core_object, 0)]).1 ++
               addInheritanceParents objects
                 (bfsGo objects config.max_depth (bfsFuel objects) [] []
                   [(config.core_object, 0)]).1)
         else [] },
      ?_, ?_, ?_, ?_, hdep, hnod, ?_⟩
  · rw [filterF, if_neg (by simp [hroot])]
    rfl
  · intro n
    constructor
    · intro hn
      by_cases h₁ : n ∈ (bfsGo objects config.max_depth (bfsFuel objects) [] []
          [(config.core_object, 0)]).1
      · exact Or.inl h₁
      · by_cases h₂ : n ∈ addInheritanceParents objects
            (bfsGo objects config.max_depth (bfsFuel objects) [] []
              [(config.core_object, 0)]).1
        · exact Or.inr (Or.inl h₂)
        · refine Or.inr (Or.inr ?_)
          simp only [List.mem_filter]
          refine ⟨hn, ?_⟩
          simp only [List.mem_append, decide_eq_true_eq]
          push_neg
          exact ⟨h₁, h₂⟩
    · intro hn
      rcases hn with hn | hn | hn
      · exact hsub n hn
      · exact (hadds n hn).2
      · exact (List.mem_filter.1 hn).1
  · intro n hn
    constructor
    · intro hmem
      exact absurd hn (hadds n hmem).1
    · intro hmem
      have := (List.mem_filter.1 hmem).2
      simp only [List.mem_append, decide_eq_true_eq] at this
      push_neg at this
      exact this.1 hn
  · intro n hn hmem
    have := (List.mem_filter.1 hmem).2
    simp only [List.mem_append, decide_eq_true_eq] at this
    push_neg at this
    exact this.2 hn
  · intro n hn
    rw [filter_fst_length_eq_count, hdep]
    exact List.count_eq_one_of_mem hnod hn

/-- Witness for the amended C2 at the concrete schema `c2Objects`
(root `b`, depth 0). -/
theorem C2_filter_partition_amended_witness :
    ∃ res, filterF c2Objects [] { core_object := "b", max_depth := 0 } =
        .ok res ∧
      (∀ n, n ∈ c2Objects.map Prod.fst ↔
        (n ∈ res.included_objects ∨ n ∈ res.inheritance_additions ∨
          n ∈ res.excluded_objects)) ∧
      (∀ n ∈ res.included_objects,
        n ∉ res.inheritance_additions ∧ n ∉ res.excluded_objects) ∧
      (∀ n ∈ res.inheritance_additions, n ∉ res.excluded_objects) ∧
      res.object_depths.map Prod.fst = res.included_objects ∧
      res.included_objects.Nodup ∧
      ∀ n ∈ res.included_objects,
        (res.object_depths.filter fun kv => kv.1 = n).length = 1 :=
  C2_filter_partition_amended c2Objects []
    { core_object := "b", max_depth := 0 } (by decide)

/-! ## Topological sorting (Kahn's algorithm)

`_topological_sort_objects` / `_topological_sort_events`
(`inheritance_resolver.py`) and `_topological_sort` (`object_filter.py`)
run the same in-degree/queue algorithm; they differ only in how each node's
effective parent is computed.  The shared core is embedded once over a list
of (name, effective parent) pairs in iteration order. -/

/-- One entry of the map-building pass: a node with an effective parent
increments its own in-degree and appends itself to the parent's adjacency
list. -/
def kahnInitStep
    (maps : List (String × Int) × List (String × List String))
    (x : String × Option String) :
    List (String × Int) × List (String × List String) :=
  match x.2 with
  | some p =>
    (dmodify maps.1 x.1 fun d => d + 1, dmodify maps.2 p fun l => l ++ [x.1])
  | none => maps

/-- Build `in_degree` and `adj` (both initialized over all node names, then
filled in iteration order). -/
def kahnInit (nodes : List (String × Option String)) :
    List (String × Int) × List (String × List String) :=
  nodes.foldl kahnInitStep
    (nodes.map fun x => (x.1, (0 : Int)),
      nodes.map fun x => (x.1, ([] : List String)))

/-- The inner loop body of Kahn's algorithm: decrement a child's in-degree
and enqueue it when the decremented degree reaches zero. -/
def kahnChildStep (s : List (String × Int) × List String) (child : String) :
    List (String × Int) × List String :=
  let d₂ := dmodify s.1 child fun d => d - 1
  if (dlookup child d₂).getD 0 = 0 then (d₂, s.2 ++ [child]) else (d₂, s.2)

/-- The `while queue` loop of Kahn's algorithm, with explicit fuel: pop the
queue head, append it to the result, process its adjacency list.  Appending
the newly zero-degree children after the remaining queue is exactly the
source's `queue.append` inside the child loop. -/
def kahnGo (adj : List (String × List String)) :
    Nat → List (String × Int) → List String → List String → List String
  | 0, _, _, result => result
  | fuel + 1, deg, queue, result =>
    match queue with
    | [] => result
    | node :: qrest =>
      let step := ((dlookup node adj).getD []).foldl kahnChildStep (deg, [])
      kahnGo adj fuel step.1 (qrest ++ step.2) (result ++ [node])

/-- Kahn's algorithm over (name, effective parent) pairs.  The fuel
`nodes.length + 1` covers every iteration: each name is enqueued at most
once (initially when parentless, else on the single decrement of its
in-degree). -/
def kahnSort (nodes : List (String × Option String)) : List String :=
  let maps := kahnInit nodes
  kahnGo maps.2 (nodes.length + 1) maps.1
    ((maps.1.filter fun kv => kv.2 = 0).map Prod.fst) []

/-- The effective parent used by `_topological_sort_objects` /
`_topological_sort_events`: the `extends` name when truthy and present in
the same entity map. -/
def pyParent (entities : List (String × RawEntity)) (o : RawEntity) :
    Option String :=
  match o.extendsName with
  | some p => if p ≠ "" ∧ p ∈ entities.map Prod.fst then some p else none
  | none => none

/-- `InheritanceResolver._topological_sort_objects` (and the textually
identical `_topological_sort_events` over the event map): the
`topological_order` of every tree `build_object_inheritance_tree` /
`build_event_inheritance_tree` produces. -/
def topologicalSortEntities (entities : List (String × RawEntity)) :
    List String :=
  kahnSort (entities.map fun kv => (kv.1, pyParent entities kv.2))

/-- The effective parent used by `ObjectFilter._topological_sort` over a
rebuilt tree: the recorded parent when truthy and itself included. -/
def effParentF (parents : List (String × Option String))
    (included : List String) (n : String) : Option String :=
  match (dlookup n parents).getD none with
  | some p => if p ≠ "" ∧ p ∈ included then some p else none
  | none => none

/-- `ObjectFilter._rebuild_inheritance_tree`, parents map: the original
parent is kept only when itself included, else the entity becomes a root
(Python-set iteration over `included` modelled as list order). -/
def rebuildParents (orig : List (String × Option String))
    (included : List String) : List (String × Option String) :=
  included.map fun n =>
    (n,
      match (dlookup n orig).getD none with
      | some p => if p ≠ "" ∧ p ∈ included then some p else none
      | none => none)

/-- `ObjectFilter._topological_sort` over a rebuilt tree's parents map. -/
def filterTopologicalSort (parents : List (String × Option String))
    (included : List String) : List String :=
  kahnSort (included.map fun n => (n, effParentF parents included n))

/-- The adjacency list Kahn's init produces for `p`: the nodes whose
effective parent is `p`, in iteration order. -/
def childrenOf (nodes : List (String × Option String)) (p : String) :
    List String :=
  (nodes.filter fun x => x.2 = some p).map Prod.fst

/-- **C1** (counterexample): on a two-object schema whose `extends`
pointers form a cycle (`a extends b extends a`), the computed
`topological_order` is empty — not a permutation of the entity set the tree
was built from. -/
theorem C1_topological_order_counterexample :
    topologicalSortEntities
        [("a", { extendsName := some "b" }), ("b", { extendsName := some "a" })] =
      [] ∧
    (List.map Prod.fst
        [("a", ({ extendsName := some "b" } : RawEntity)),
         ("b", { extendsName := some "a" })] = ["a", "b"]) ∧
    ¬ (topologicalSortEntities
        [("a", { extendsName := some "b" }), ("b", { extendsName := some "a" })]).Perm
        (List.map Prod.fst
          [("a", ({ extendsName := some "b" } : RawEntity)),
           ("b", { extendsName := some "a" })]) := by
  refine ⟨rfl, rfl, ?_⟩
  intro h
  have h0 : topologicalSortEntities
      [("a", { extendsName := some "b" }), ("b", { extendsName := some "a" })] =
      [] := rfl
  rw [h0] at h
  have := h.length_eq
  simp at this

theorem dlookup_of_mem_nodup {α : Type} (m : List (String × α)) (k : String)
    (v : α) (h : (k, v) ∈ m) (hnd : (m.map Prod.fst).Nodup) :
    dlookup k m = some v := by
  induction m with
  | nil => simp at h
  | cons hd tl ih =>
    obtain ⟨k₁, v₁⟩ := hd
    simp only [List.map_cons, List.nodup_cons] at hnd
    rcases List.mem_cons.1 h with heq | hmem
    · obtain ⟨rfl, rfl⟩ := Prod.mk.injEq .. ▸ heq
      simp [dlookup]
    · have hk : k₁ ≠ k := by
        intro he
        subst he
        exact hnd.1 (List.mem_map.2 ⟨(k₁, v), hmem, rfl⟩)
      simp only [dlookup, if_neg hk]
      exact ih hmem hnd.2

theorem dlookup_const_map {α β : Type} (l : List (String × β)) (c : α)
    (k : String) (h : k ∈ l.map Prod.fst) :
    dlookup k (l.map fun x => (x.1, c)) = some c := by
  induction l with
  | nil => simp at h
  | cons hd tl ih =>
    by_cases hk : hd.1 = k
    · simp [dlookup, hk]
    · simp only [List.map_cons, List.mem_cons] at h
      rcases h with h | h
      · exact absurd h.symm hk
      · simp only [List.map_cons, dlookup, if_neg hk]
        exact ih h

theorem kahnInit_fold_keys :
    ∀ (l : List (String × Option String))
      (maps : List (String × Int) × List (String × List String)),
      (l.foldl kahnInitStep maps).1.map Prod.fst = maps.1.map Prod.fst ∧
      (l.foldl kahnInitStep maps).2.map Prod.fst = maps.2.map Prod.fst := by
  intro l
  induction l with
  | nil => intro maps; exact ⟨rfl, rfl⟩
  | cons x rest ih =>
    intro maps
    rw [List.foldl_cons]
    obtain ⟨h₁, h₂⟩ := ih (kahnInitStep maps x)
    rw [h₁, h₂, kahnInitStep]
    cases x.2 with
    | none => exact ⟨rfl, rfl⟩
    | some p => exact ⟨dmodify_keys _ _ _, dmodify_keys _ _ _⟩

theorem kahnInit_fold_deg :
    ∀ (l : List (String × Option String))
      (maps : List (String × Int) × List (String × List String)) (n : String),
      dlookup n (l.foldl kahnInitStep maps).1 =
        (dlookup n maps.1).map fun d =>
          d + ((l.filter fun x => x.1 = n && x.2.isSome).length : Int) := by
  intro l
  induction l with
  | nil =>
    intro maps n
    cases hd : dlookup n maps.1 <;> simp [hd]
  | cons x rest ih =>
    intro maps n
    rw [List.foldl_cons, ih, List.filter_cons]
    cases hx : x.2 with
    | none =>
      rw [kahnInitStep, hx]
      rw [if_neg (by simp [hx])]
    | some p =>
      have hstep : (kahnInitStep maps x).1 = dmodify maps.1 x.1 fun d => d + 1 := by
        rw [kahnInitStep, hx]
      rw [hstep]
      by_cases hk : x.1 = n
      · rw [if_pos (by simp [hx, hk])]
        rw [hk, dlookup_dmodify_self]
        cases hd : dlookup n maps.1 with
        | none => simp
        | some d =>
          simp only [Option.map_some', List.length_cons, Option.some.injEq]
          push_cast
          ring
      · rw [if_neg (by simp [hk])]
        rw [@dlookup_dmodify_ne _ maps.1 x.1 n _ hk]

theorem kahnInit_fold_adj :
    ∀ (l : List (String × Option String))
      (maps : List (String × Int) × List (String × List String)) (p : String),
      dlookup p (l.foldl kahnInitStep maps).2 =
        (dlookup p maps.2).map fun cl =>
          cl ++ (l.filter fun x => x.2 = some p).map Prod.fst := by
  intro l
  induction l with
  | nil =>
    intro maps p
    cases hd : dlookup p maps.2 <;> simp [hd]
  | cons x rest ih =>
    intro maps p
    rw [List.foldl_cons, ih, List.filter_cons]
    cases hx : x.2 with
    | none =>
      rw [kahnInitStep, hx]
      rw [if_neg (by simp [hx])]
    | some q =>
      have hstep : (kahnInitStep maps x).2 = dmodify maps.2 q fun cl =>
          cl ++ [x.1] := by
        rw [kahnInitStep, hx]
      rw [hstep]
      by_cases hq : q = p
      · rw [if_pos (by simp [hx, hq])]
        rw [hq, dlookup_dmodify_self]
        cases hd : dlookup p maps.2 with
        | none => simp
        | some cl => simp
      · rw [if_neg (by simp [hx, hq])]
        rw [@dlookup_dmodify_ne _ maps.2 q p _ hq]

theorem kahnInit_keys (nodes : List (String × Option String)) :
    (kahnInit nodes).1.map Prod.fst = nodes.map Prod.fst ∧
      (kahnInit nodes).2.map Prod.fst = nodes.map Prod.fst := by
  rw [kahnInit]
  obtain ⟨h₁, h₂⟩ := kahnInit_fold_keys nodes
    (nodes.map fun x => (x.1, (0 : Int)),
      nodes.map fun x => (x.1, ([] : List String)))
  rw [h₁, h₂]
  constructor <;> rw [List.map_map] <;> rfl

theorem filter_key_nodup (nodes : List (String × Option String))
    (q : String × Option String → Bool)
    (hnd : (nodes.map Prod.fst).Nodup) (n : String) (po : Option String)
    (hmem : (n, po) ∈ nodes) :
    (nodes.filter fun x => x.1 = n && q x).length =
      if q (n, po) then 1 else 0 := by
  induction nodes with
  | nil => simp at hmem
  | cons x rest ih =>
    simp only [List.map_cons, List.nodup_cons] at hnd
    rcases List.mem_cons.1 hmem with heq | hmem₂
    · obtain rfl := heq.symm
      have hrest : (rest.filter fun x => x.1 = n && q x) = [] := by
        rw [List.filter_eq_nil_iff]
        intro a ha
        have : a.1 ≠ n := by
          intro he
          exact hnd.1 (he ▸ List.mem_map.2 ⟨a, ha, rfl⟩)
        simp [this]
      rw [List.filter_cons]
      by_cases hq : q (n, po)
      · rw [if_pos (by simp [hq])]
        simp [hrest, hq]
      · rw [if_neg (by simp [hq])]
        simp [hrest, hq]
    · have hx : x.1 ≠ n := by
        intro he
        exact hnd.1 (he ▸ List.mem_map.2 ⟨(n, po), hmem₂, rfl⟩)
      rw [List.filter_cons, if_neg (by simp [hx])]
      exact ih hnd.2 hmem₂

theorem kahnInit_deg_spec (nodes : List (String × Option String))
    (hnd : (nodes.map Prod.fst).Nodup) (n : String) (po : Option String)
    (hmem : (n, po) ∈ nodes) :
    dlookup n (kahnInit nodes).1 =
      some (if po.isSome then (1 : Int) else 0) := by
  have hn : n ∈ nodes.map Prod.fst := List.mem_map.2 ⟨(n, po), hmem, rfl⟩
  rw [kahnInit, kahnInit_fold_deg, dlookup_const_map _ _ _ hn]
  rw [filter_key_nodup nodes (fun x => x.2.isSome) hnd n po hmem]
  cases po <;> simp

theorem kahnInit_adj_spec (nodes : List (String × Option String))
    (p : String) (hp : p ∈ nodes.map Prod.fst) :
    dlookup p (kahnInit nodes).2 = some (childrenOf nodes p) := by
  rw [kahnInit, kahnInit_fold_adj, dlookup_const_map _ _ _ hp]
  rw [childrenOf]
  simp

theorem childrenOf_nodup (nodes : List (String × Option String))
    (hnd : (nodes.map Prod.fst).Nodup) (p : String) :
    (childrenOf nodes p).Nodup := by
  rw [childrenOf]
  exact hnd.sublist (List.Sublist.map Prod.fst (List.filter_sublist nodes))

theorem mem_childrenOf (nodes : List (String × Option String))
    (hnd : (nodes.map Prod.fst).Nodup) (c p : String) :
    c ∈ childrenOf nodes p ↔ dlookup c nodes = some (some p) := by
  constructor
  · intro h
    obtain ⟨x, hx, hx1⟩ := List.mem_map.1 h
    have hxf := List.mem_filter.1 hx
    have hx2 : x.2 = some p := by simpa using hxf.2
    have : ((c, some p) : String × Option String) ∈ nodes := by
      have : x = (c, some p) := by
        obtain ⟨a, b⟩ := x
        simp only at hx1 hx2
        rw [hx1, hx2]
      exact this ▸ hxf.1
    exact dlookup_of_mem_nodup nodes c (some p) this hnd
  · intro h
    have hmem := dlookup_mem nodes c (some p) h
    exact List.mem_map.2 ⟨(c, some p), List.mem_filter.2 ⟨hmem, by simp⟩, rfl⟩

theorem childrenOf_mem_names (nodes : List (String × Option String))
    (p c : String) (h : c ∈ childrenOf nodes p) : c ∈ nodes.map Prod.fst := by
  obtain ⟨x, hx, hx1⟩ := List.mem_map.1 h
  exact List.mem_map.2 ⟨x, (List.mem_filter.1 hx).1, hx1⟩

theorem kahnFold_effect :
    ∀ (cs : List String) (deg : List (String × Int)) (acc : List String),
      cs.Nodup → (∀ c ∈ cs, dlookup c deg = some 1) →
      (cs.foldl kahnChildStep (deg, acc)).2 = acc ++ cs ∧
        ∀ n, dlookup n (cs.foldl kahnChildStep (deg, acc)).1 =
          if n ∈ cs then some 0 else dlookup n deg := by
  intro cs
  induction cs with
  | nil =>
    intro deg acc _ _
    exact ⟨(List.append_nil acc).symm, fun n => by simp⟩
  | cons c rest ih =>
    intro deg acc hnd hdeg
    simp only [List.nodup_cons] at hnd
    have hc0 : dlookup c (dmodify deg c fun d => d - 1) = some 0 := by
      rw [dlookup_dmodify_self, hdeg c (List.mem_cons_self c rest)]
      simp
    have hstep : kahnChildStep (deg, acc) c =
        (dmodify deg c fun d => d - 1, acc ++ [c]) := by
      rw [kahnChildStep]
      simp only [hc0]
      rw [if_pos (by simp)]
    have hdeg₂ : ∀ c₂ ∈ rest, dlookup c₂ (dmodify deg c fun d => d - 1) =
        some 1 := by
      intro c₂ hc₂
      have hne : c ≠ c₂ := fun he => hnd.1 (he ▸ hc₂)
      rw [@dlookup_dmodify_ne _ deg c c₂ _ hne]
      exact hdeg c₂ (List.mem_cons_of_mem _ hc₂)
    obtain ⟨ih₂, ih₁⟩ := ih (dmodify deg c fun d => d - 1) (acc ++ [c])
      hnd.2 hdeg₂
    rw [List.foldl_cons, hstep]
    refine ⟨by rw [ih₂]; simp, ?_⟩
    intro n
    rw [ih₁ n]
    by_cases hn : n ∈ rest
    · rw [if_pos hn, if_pos (List.mem_cons_of_mem _ hn)]
    · rw [if_neg hn]
      by_cases hnc : n = c
      · subst hnc
        rw [if_pos (List.mem_cons_self n rest), hc0]
      · rw [if_neg (by simp [hnc, hn])]
        exact @dlookup_dmodify_ne _ deg c n _ (fun he => hnc he.symm)

/-- The in-degree each name holds while `result` is the processed list: 0
once its parent (if any) has been processed, else 1. -/
def degInv : Option String → List String → Int
  | none, _ => 0
  | some p, result => if p ∈ result then 0 else 1

theorem kahnGo_correct (nodes : List (String × Option String))
    (rank : String → Nat)
    (hnd : (nodes.map Prod.fst).Nodup)
    (hvalid : ∀ x ∈ nodes, ∀ p, x.2 = some p → p ∈ nodes.map Prod.fst)
    (hrank : ∀ x ∈ nodes, ∀ p, x.2 = some p → rank p < rank x.1) :
    ∀ (fuel : Nat) (deg : List (String × Int)) (queue result : List String),
      (nodes.map Prod.fst).length + 1 ≤ fuel + result.length →
      (result ++ queue).Nodup →
      (∀ n, n ∈ result ++ queue ↔
        n ∈ nodes.map Prod.fst ∧
          ∀ p, dlookup n nodes = some (some p) → p ∈ result) →
      (∀ n po, (n, po) ∈ nodes → dlookup n deg = some (degInv po result)) →
      (∀ l₁ c l₂, result = l₁ ++ c :: l₂ →
        ∀ p, dlookup c nodes = some (some p) → p ∈ l₁) →
      (∀ a, a ∈ kahnGo (kahnInit nodes).2 fuel deg queue result ↔
          a ∈ nodes.map Prod.fst) ∧
        (kahnGo (kahnInit nodes).2 fuel deg queue result).Nodup ∧
        ∀ l₁ c l₂,
          kahnGo (kahnInit nodes).2 fuel deg queue result = l₁ ++ c :: l₂ →
          ∀ p, dlookup c nodes = some (some p) → p ∈ l₁ := by
  intro fuel
  induction fuel with
  | zero =>
    intro deg queue result hfuel h1 h2 h3 h4
    exfalso
    have hres_nodup : result.Nodup := (List.nodup_append.1 h1).1
    have hres_sub : result ⊆ nodes.map Prod.fst := by
      intro a ha
      exact ((h2 a).1 (List.mem_append.2 (Or.inl ha))).1
    have := (List.subperm_of_subset hres_nodup hres_sub).length_le
    omega
  | succ f ih =>
    intro deg queue result hfuel h1 h2 h3 h4
    match queue with
    | [] =>
      have hk : kahnGo (kahnInit nodes).2 (f + 1) deg [] result = result := rfl
      rw [hk]
      have hcomp : ∀ k n, n ∈ nodes.map Prod.fst → rank n < k → n ∈ result := by
        intro k
        induction k with
        | zero => intro n _ hrk; omega
        | succ k ihk =>
          intro n hn hrk
          obtain ⟨x, hxmem, hx1⟩ := List.mem_map.1 hn
          subst hx1
          have hlk : dlookup x.1 nodes = some x.2 :=
            dlookup_of_mem_nodup nodes x.1 x.2 (by simpa using hxmem) hnd
          cases hpo : x.2 with
          | none =>
            have hseen := (h2 x.1).2 ⟨hn, ?_⟩
            · simpa using hseen
            · intro p hp
              rw [hlk, hpo] at hp
              simp at hp
          | some p =>
            have hpn : p ∈ nodes.map Prod.fst := hvalid x hxmem p hpo
            have hplt : rank p < rank x.1 := hrank x hxmem p hpo
            have hpres : p ∈ result := ihk p hpn (by omega)
            have hseen := (h2 x.1).2 ⟨hn, ?_⟩
            · simpa using hseen
            · intro p₂ hp₂
              rw [hlk, hpo] at hp₂
              simp only [Option.some.injEq] at hp₂
              exact hp₂ ▸ hpres
      refine ⟨?_, (List.nodup_append.1 h1).1, h4⟩
      intro a
      constructor
      · intro ha
        exact ((h2 a).1 (List.mem_append.2 (Or.inl ha))).1
      · intro ha
        exact hcomp (rank a + 1) a ha (Nat.lt_succ_self _)
    | node :: qrest =>
      have hnode_seen : node ∈ result ++ node :: qrest :=
        List.mem_append.2 (Or.inr (List.mem_cons_self node qrest))
      obtain ⟨hnode_names, hnode_par⟩ := (h2 node).1 hnode_seen
      have hnode_notres : node ∉ result := fun hmem =>
        (List.nodup_append.1 h1).2.2 hmem (List.mem_cons_self node qrest)
      have hadj : dlookup node (kahnInit nodes).2 =
          some (childrenOf nodes node) := kahnInit_adj_spec nodes node hnode_names
      have hcs_nodup := childrenOf_nodup nodes hnd node
      have hcs_deg : ∀ c ∈ childrenOf nodes node, dlookup c deg = some 1 := by
        intro c hc
        have hcl := (mem_childrenOf nodes hnd c node).1 hc
        have hcmem := dlookup_mem nodes c (some node) hcl
        rw [h3 c (some node) hcmem, degInv, if_neg hnode_notres]
      obtain ⟨hf2, hf1⟩ :=
        kahnFold_effect (childrenOf nodes node) deg [] hcs_nodup hcs_deg
      have hcs_not_seen : ∀ c ∈ childrenOf nodes node,
          c ∉ result ++ node :: qrest := by
        intro c hc hmem
        have hcl := (mem_childrenOf nodes hnd c node).1 hc
        exact hnode_notres (((h2 c).1 hmem).2 node hcl)
      have hk : kahnGo (kahnInit nodes).2 (f + 1) deg (node :: qrest) result =
          kahnGo (kahnInit nodes).2 f
            (((dlookup node (kahnInit nodes).2).getD []).foldl kahnChildStep
              (deg, [])).1
            (qrest ++
              (((dlookup node (kahnInit nodes).2).getD []).foldl kahnChildStep
                (deg, [])).2)
            (result ++ [node]) := rfl
      have hgetD : (dlookup node (kahnInit nodes).2).getD [] =
          childrenOf nodes node := by rw [hadj]; rfl
      rw [hk, hgetD, hf2, List.nil_append]
      have hre : (result ++ [node]) ++ (qrest ++ childrenOf nodes node) =
          (result ++ node :: qrest) ++ childrenOf nodes node := by
        simp
      apply ih
      · simp only [List.length_append, List.length_cons, List.length_nil]
        omega
      · rw [hre]
        rw [List.nodup_append]
        exact ⟨h1, hcs_nodup, fun a ha hac => hcs_not_seen a hac ha⟩
      · intro n
        rw [hre, List.mem_append]
        constructor
        · rintro (hn | hn)
          · obtain ⟨hn₁, hn₂⟩ := (h2 n).1 hn
            exact ⟨hn₁, fun p hp => List.mem_append.2 (Or.inl (hn₂ p hp))⟩
          · refine ⟨childrenOf_mem_names nodes node n hn, ?_⟩
            have hcl := (mem_childrenOf nodes hnd n node).1 hn
            intro p hp
            rw [hcl] at hp
            simp only [Option.some.injEq] at hp
            exact List.mem_append.2 (Or.inr (by simp [hp]))
        · rintro ⟨hn, hpar⟩
          obtain ⟨x, hxmem, hx1⟩ := List.mem_map.1 hn
          subst hx1
          have hlk : dlookup x.1 nodes = some x.2 :=
            dlookup_of_mem_nodup nodes x.1 x.2 (by simpa using hxmem) hnd
          cases hpo : x.2 with
          | none =>
            refine Or.inl ((h2 x.1).2 ⟨hn, ?_⟩)
            intro p hp
            rw [hlk, hpo] at hp
            simp at hp
          | some p =>
            have hp₂ : p ∈ result ++ [node] := hpar p (by rw [hlk, hpo])
            rcases List.mem_append.1 hp₂ with hp₂ | hp₂
            · refine Or.inl ((h2 x.1).2 ⟨hn, ?_⟩)
              intro p₃ hp₃
              rw [hlk, hpo] at hp₃
              simp only [Option.some.injEq] at hp₃
              exact hp₃ ▸ hp₂
            · simp only [List.mem_singleton] at hp₂
              subst hp₂
              exact Or.inr ((mem_childrenOf nodes hnd x.1 p).2 (by rw [hlk, hpo]))
      · intro n po hmem
        rw [hf1 n]
        by_cases hn : n ∈ childrenOf nodes node
        · rw [if_pos hn]
          have hcl := (mem_childrenOf nodes hnd n node).1 hn
          have hlk : dlookup n nodes = some po :=
            dlookup_of_mem_nodup nodes n po hmem hnd
          rw [hlk] at hcl
          simp only [Option.some.injEq] at hcl
          rw [hcl, degInv, if_pos (List.mem_append.2 (Or.inr (by simp)))]
        · rw [if_neg hn, h3 n po hmem]
          congr 1
          cases po with
          | none => rfl
          | some p =>
            by_cases hpn : p = node
            · exfalso
              apply hn
              apply (mem_childrenOf nodes hnd n node).2
              rw [dlookup_of_mem_nodup nodes n (some p) hmem hnd, hpn]
            · rw [degInv, degInv]
              have : (p ∈ result ++ [node]) ↔ (p ∈ result) := by
                simp [hpn]
              simp only [this]
      · intro l₁ c l₂ heq p hp
        rcases List.append_eq_append_iff.1 heq with ⟨a, ha₁, ha₂⟩ | ⟨d, hd₁, hd₂⟩
        · cases a with
          | nil =>
            rw [List.nil_append] at ha₂
            rw [List.append_nil] at ha₁
            injection ha₂ with hx₁ hx₂
            subst hx₁
            exact ha₁ ▸ hnode_par p hp
          | cons a₀ a' =>
            exfalso
            injection ha₂ with hx₁ hx₂
            exact List.cons_ne_nil c l₂ (List.append_eq_nil.1 hx₂.symm).2
        · cases d with
          | nil =>
            rw [List.nil_append] at hd₂
            rw [List.append_nil] at hd₁
            injection hd₂ with hx₁ hx₂
            subst hx₁
            exact hd₁ ▸ hnode_par p hp
          | cons d₀ d' =>
            injection hd₂ with hx₁ hx₂
            subst hx₁
            subst hx₂
            exact h4 l₁ c d' hd₁ p hp

theorem indexOf_append_left {a : String} {l₁ : List String} (l₂ : List String)
    (h : a ∈ l₁) : List.indexOf a (l₁ ++ l₂) = List.indexOf a l₁ := by
  induction l₁ with
  | nil => simp at h
  | cons b rest ih =>
    by_cases hb : b = a
    · simp [List.indexOf_cons, hb]
    · rcases List.mem_cons.1 h with h | h
      · exact absurd h.symm hb
      · simp only [List.cons_append, List.indexOf_cons, ih h]

theorem indexOf_append_self {a : String} {l₁ : List String} (l₂ : List String)
    (h : a ∉ l₁) : List.indexOf a (l₁ ++ a :: l₂) = l₁.length := by
  induction l₁ with
  | nil => simp [List.indexOf_cons]
  | cons b rest ih =>
    simp only [List.mem_cons] at h
    push_neg at h
    have hb : (b == a) = false := by simp [Ne.symm h.1]
    simp only [List.cons_append, List.indexOf_cons, hb, ih h.2]
    rfl

theorem kahnSort_spec (nodes : List (String × Option String))
    (rank : String → Nat) (hnd : (nodes.map Prod.fst).Nodup)
    (hvalid : ∀ x ∈ nodes, ∀ p, x.2 = some p → p ∈ nodes.map Prod.fst)
    (hrank : ∀ x ∈ nodes, ∀ p, x.2 = some p → rank p < rank x.1) :
    (kahnSort nodes).Perm (nodes.map Prod.fst) ∧
      ∀ x ∈ nodes, ∀ p, x.2 = some p →
        List.indexOf p (kahnSort nodes) < List.indexOf x.1 (kahnSort nodes) := by
  have hkeys := kahnInit_keys nodes
  have hdegnd : ((kahnInit nodes).1.map Prod.fst).Nodup := by
    rw [hkeys.1]
    exact hnd
  have hq0 : ∀ n,
      n ∈ (((kahnInit nodes).1.filter fun kv => kv.2 = 0).map Prod.fst) ↔
        n ∈ nodes.map Prod.fst ∧ dlookup n nodes = some none := by
    intro n
    constructor
    · intro hn
      obtain ⟨kv, hkv, hkv1⟩ := List.mem_map.1 hn
      obtain ⟨hkvdeg, hkv0⟩ := List.mem_filter.1 hkv
      have hn₂ : n ∈ nodes.map Prod.fst := by
        rw [← hkeys.1]
        exact List.mem_map.2 ⟨kv, hkvdeg, hkv1⟩
      obtain ⟨x, hxmem, hx1⟩ := List.mem_map.1 hn₂
      subst hx1
      have hlk : dlookup x.1 nodes = some x.2 :=
        dlookup_of_mem_nodup nodes x.1 x.2 (by simpa using hxmem) hnd
      have hdeg := kahnInit_deg_spec nodes hnd x.1 x.2 (by simpa using hxmem)
      have hdeg₂ : dlookup x.1 (kahnInit nodes).1 = some kv.2 := by
        rw [← hkv1]
        exact dlookup_of_mem_nodup _ kv.1 kv.2 (by simpa using hkvdeg) hdegnd
      rw [hdeg₂] at hdeg
      have hkv0' : kv.2 = 0 := by simpa using hkv0
      rw [hkv0'] at hdeg
      cases hx2 : x.2 with
      | none => exact ⟨hn₂, by rw [hlk, hx2]⟩
      | some p =>
        exfalso
        rw [hx2] at hdeg
        simp at hdeg
    · rintro ⟨hn, hlk⟩
      have hmem := dlookup_mem nodes n none hlk
      have hdeg := kahnInit_deg_spec nodes hnd n none hmem
      simp only [Option.isSome_none, Bool.false_eq_true, if_false] at hdeg
      exact List.mem_map.2
        ⟨(n, 0), List.mem_filter.2 ⟨dlookup_mem _ n 0 hdeg, by simp⟩, rfl⟩
  have hq0nd : (((kahnInit nodes).1.filter fun kv => kv.2 = 0).map
      Prod.fst).Nodup := by
    apply hdegnd.sublist
    exact List.Sublist.map Prod.fst (List.filter_sublist _)
  have hi2 : ∀ n, n ∈ ([] : List String) ++
        (((kahnInit nodes).1.filter fun kv => kv.2 = 0).map Prod.fst) ↔
      n ∈ nodes.map Prod.fst ∧
        ∀ p, dlookup n nodes = some (some p) → p ∈ ([] : List String) := by
    intro n
    rw [List.nil_append, hq0 n]
    constructor
    · rintro ⟨hn, hlk⟩
      refine ⟨hn, ?_⟩
      intro p hp
      rw [hlk] at hp
      simp at hp
    · rintro ⟨hn, hpar⟩
      refine ⟨hn, ?_⟩
      obtain ⟨x, hxmem, hx1⟩ := List.mem_map.1 hn
      subst hx1
      have hlk : dlookup x.1 nodes = some x.2 :=
        dlookup_of_mem_nodup nodes x.1 x.2 (by simpa using hxmem) hnd
      rw [hlk]
      cases hx2 : x.2 with
      | none => rfl
      | some p =>
        exfalso
        have := hpar p (by rw [hlk, hx2])
        simp at this
  have hi3 : ∀ n po, (n, po) ∈ nodes →
      dlookup n (kahnInit nodes).1 = some (degInv po []) := by
    intro n po hmem
    rw [kahnInit_deg_spec nodes hnd n po hmem]
    cases po with
    | none => rfl
    | some p => simp [degInv]
  have hmain := kahnGo_correct nodes rank hnd hvalid hrank
    (nodes.length + 1) (kahnInit nodes).1
    (((kahnInit nodes).1.filter fun kv => kv.2 = 0).map Prod.fst) []
    (by simp)
    (by simpa using hq0nd)
    hi2 hi3
    (by
      intro l₁ c l₂ heq
      exfalso
      exact List.cons_ne_nil c l₂ (List.append_eq_nil.1 heq.symm).2)
  obtain ⟨hmemiff, hnodup, hprec⟩ := hmain
  have hks : kahnSort nodes =
      kahnGo (kahnInit nodes).2 (nodes.length + 1) (kahnInit nodes).1
        (((kahnInit nodes).1.filter fun kv => kv.2 = 0).map Prod.fst) [] := rfl
  constructor
  · rw [hks]
    exact (List.perm_ext_iff_of_nodup hnodup hnd).2 hmemiff
  · intro x hx p hp
    rw [hks]
    have hx1res : x.1 ∈ kahnGo (kahnInit nodes).2 (nodes.length + 1)
        (kahnInit nodes).1
        (((kahnInit nodes).1.filter fun kv => kv.2 = 0).map Prod.fst) [] :=
      (hmemiff x.1).2 (List.mem_map.2 ⟨x, hx, rfl⟩)
    obtain ⟨l₁, l₂, hsplit⟩ := List.append_of_mem hx1res
    have hlk : dlookup x.1 nodes = some (some p) := by
      rw [dlookup_of_mem_nodup nodes x.1 x.2 (by simpa using hx) hnd, hp]
    have hpl₁ : p ∈ l₁ := hprec l₁ x.1 l₂ hsplit p hlk
    rw [hsplit] at hnodup ⊢
    have hx1nl₁ : x.1 ∉ l₁ := fun hmem =>
      (List.nodup_append.1 hnodup).2.2 hmem (List.mem_cons_self x.1 l₂)
    rw [indexOf_append_self l₂ hx1nl₁, indexOf_append_left _ hpl₁]
    exact List.indexOf_lt_length.2 hpl₁

theorem pyParent_mem (entities : List (String × RawEntity)) (o : RawEntity)
    (p : String) (h : pyParent entities o = some p) :
    p ∈ entities.map Prod.fst := by
  rw [pyParent] at h
  cases ho : o.extendsName with
  | none =>
    rw [ho] at h
    exact Option.noConfusion h
  | some q =>
    rw [ho] at h
    dsimp only at h
    by_cases hc : q ≠ "" ∧ q ∈ entities.map Prod.fst
    · rw [if_pos hc] at h
      injection h with h
      exact h ▸ hc.2
    · rw [if_neg hc] at h
      exact Option.noConfusion h

theorem effParentF_mem (parents : List (String × Option String))
    (included : List String) (n p : String)
    (h : effParentF parents included n = some p) : p ∈ included := by
  rw [effParentF] at h
  cases ho : (dlookup n parents).getD none with
  | none =>
    rw [ho] at h
    exact Option.noConfusion h
  | some q =>
    rw [ho] at h
    dsimp only at h
    by_cases hc : q ≠ "" ∧ q ∈ included
    · rw [if_pos hc] at h
      injection h with h
      exact h ▸ hc.2
    · rw [if_neg hc] at h
      exact Option.noConfusion h

/-- **C1** (amended): for every inheritance tree the pipeline builds
(`_topological_sort_objects` / `_topological_sort_events`) or rebuilds
(`ObjectFilter._topological_sort`), whenever the effective parent relation
is acyclic (witnessed by a rank function), the `topological_order` is a
permutation of exactly the entity set the tree was built from, and every
entity whose effective parent lies in that set appears strictly after its
parent.  When the `extends` pointers contain a cycle the entities on or
below the cycle are omitted instead (see the counterexample). -/
theorem C1_topological_order_amended :
    (∀ (entities : List (String × RawEntity)) (rank : String → Nat),
      (entities.map Prod.fst).Nodup →
      (∀ kv ∈ entities, ∀ p, pyParent entities kv.2 = some p →
        rank p < rank kv.1) →
      (topologicalSortEntities entities).Perm (entities.map Prod.fst) ∧
        ∀ kv ∈ entities, ∀ p, pyParent entities kv.2 = some p →
          List.indexOf p (topologicalSortEntities entities) <
            List.indexOf kv.1 (topologicalSortEntities entities)) ∧
    ∀ (parents : List (String × Option String)) (included : List String)
      (rank : String → Nat),
      included.Nodup →
      (∀ n ∈ included, ∀ p, effParentF parents included n = some p →
        rank p < rank n) →
      (filterTopologicalSort parents included).Perm included ∧
        ∀ n ∈ included, ∀ p, effParentF parents included n = some p →
          List.indexOf p (filterTopologicalSort parents included) <
            List.indexOf n (filterTopologicalSort parents included) := by
  constructor
  · intro entities rank hnd hrank
    have hmapfst :
        ((entities.map fun kv => (kv.1, pyParent entities kv.2)).map
          Prod.fst) = entities.map Prod.fst := by
      rw [List.map_map]
      rfl
    have hspec := kahnSort_spec
      (entities.map fun kv => (kv.1, pyParent entities kv.2)) rank
      (by rw [hmapfst]; exact hnd)
      (by
        intro x hx p hp
        obtain ⟨kv, hkv, rfl⟩ := List.mem_map.1 hx
        rw [hmapfst]
        exact pyParent_mem entities kv.2 p hp)
      (by
        intro x hx p hp
        obtain ⟨kv, hkv, rfl⟩ := List.mem_map.1 hx
        exact hrank kv hkv p hp)
    rw [topologicalSortEntities]
    refine ⟨by rw [← hmapfst]; exact hspec.1, ?_⟩
    intro kv hkv p hp
    exact hspec.2 (kv.1, pyParent entities kv.2)
      (List.mem_map.2 ⟨kv, hkv, rfl⟩) p hp
  · intro parents included rank hnd hrank
    have hmapfst :
        ((included.map fun n => (n, effParentF parents included n)).map
          Prod.fst) = included := by
      rw [List.map_map]
      exact List.map_id included
    have hspec := kahnSort_spec
      (included.map fun n => (n, effParentF parents included n)) rank
      (by rw [hmapfst]; exact hnd)
      (by
        intro x hx p hp
        obtain ⟨n, hn, rfl⟩ := List.mem_map.1 hx
        rw [hmapfst]
        exact effParentF_mem parents included n p hp)
      (by
        intro x hx p hp
        obtain ⟨n, hn, rfl⟩ := List.mem_map.1 hx
        exact hrank n hn p hp)
    rw [filterTopologicalSort]
    have h₁ := hspec.1
    rw [hmapfst] at h₁
    refine ⟨h₁, ?_⟩
    intro n hn p hp
    exact hspec.2 (n, effParentF parents included n)
      (List.mem_map.2 ⟨n, hn, rfl⟩) p hp

/-- Concrete schema for the C1 witness: `b extends a`. -/
def c1Entities : List (String × RawEntity) :=
  [("a", {}), ("b", { extendsName := some "a" })]

/-- Rank function witnessing acyclicity of `c1Entities`. -/
def c1Rank : String → Nat := fun n => if n = "b" then 1 else 0

/-- Rebuilt-tree parents map for the C1 witness filter instance. -/
def c1Parents : List (String × Option String) :=
  [("a", none), ("b", some "a")]

/-- Witness for the amended C1: both the resolver sort and the filter sort,
on a concrete acyclic schema, produce a permutation with parent before
child. -/
theorem C1_topological_order_amended_witness :
    ((topologicalSortEntities c1Entities).Perm (c1Entities.map Prod.fst) ∧
      ∀ kv ∈ c1Entities, ∀ p, pyParent c1Entities kv.2 = some p →
        List.indexOf p (topologicalSortEntities c1Entities) <
          List.indexOf kv.1 (topologicalSortEntities c1Entities)) ∧
    (filterTopologicalSort c1Parents ["a", "b"]).Perm ["a", "b"] ∧
      ∀ n ∈ (["a", "b"] : List String), ∀ p,
        effParentF c1Parents ["a", "b"] n = some p →
        List.indexOf p (filterTopologicalSort c1Parents ["a", "b"]) <
          List.indexOf n (filterTopologicalSort c1Parents ["a", "b"]) := by
  constructor
  · apply C1_topological_order_amended.1 c1Entities c1Rank (by decide)
    intro kv hkv p hp
    simp only [c1Entities, List.mem_cons, List.not_mem_nil, or_false] at hkv
    rcases hkv with rfl | rfl
    · rw [show pyParent c1Entities
          (Prod.snd (("a", ({} : RawEntity)) : String × RawEntity)) = none
          from by decide] at hp
      exact Option.noConfusion hp
    · rw [show pyParent c1Entities
          (Prod.snd (("b", ({ extendsName := some "a" } : RawEntity)) :
            String × RawEntity)) = some "a" from by decide] at hp
      injection hp with hp
      subst hp
      decide
  · apply C1_topological_order_amended.2 c1Parents ["a", "b"] c1Rank (by decide)
    intro n hn p hp
    simp only [List.mem_cons, List.not_mem_nil, or_false] at hn
    rcases hn with rfl | rfl
    · rw [show effParentF c1Parents ["a", "b"] "a" = none from by decide] at hp
      exact Option.noConfusion hp
    · rw [show effParentF c1Parents ["a", "b"] "b" = some "a" from by decide]
        at hp
      injection hp with hp
      subst hp
      decide
